import Mathlib

/-!
Verification of the Section/Parameter configuration model of the cfncluster CLI.

The development embeds, in Lean:

* the schema data of `cli/pcluster/config/mappings.py` (the sections AWS,
  GLOBAL, SCALING, VPC, EBS, EFS, RAID, FSX, CLUSTER and the regex table
  `ALLOWED_VALUES`), which is the authoritative part present in the sources;
* the behaviour of the Parameter/Section/PclusterConfig classes.  Their
  implementation (`param_types.py`, `pcluster_config.py`) is not part of the
  source tree; every definition for them is modelled from the specification
  ="spec.md" (marked `Modelled from the spec:`), constrained by the behaviour
  the repository's own tests assert (`tests/pcluster_config/
  test_pcluster_config_validators.py`, `tests/pcluster/config/utils.py`).

The allowed-value matcher is modelled with a small regular-expression theory
(Brzozowski derivatives).  Per spec section 4.1 the matcher performs a
full-string (anchored) match, under which the `^` and `$` assertions occurring
at the boundaries of the alternation branches of the source patterns are
identities, so the embedded patterns carry no anchor nodes.
-/

namespace CfnCluster

/-- Regular expressions over characters: empty language, empty string,
a character class (a decidable set of characters), concatenation, alternation
and Kleene star.  Character classes subsume the literal characters, the
bracket classes and the class shorthands of the source patterns. -/
inductive Regex where
  | emp : Regex
  | eps : Regex
  | cls : (Char → Bool) → Regex
  | seq : Regex → Regex → Regex
  | alt : Regex → Regex → Regex
  | star : Regex → Regex

/-- Nullability: does the regex accept the empty string. -/
def Regex.nullable : Regex → Bool
  | .emp => false
  | .eps => true
  | .cls _ => false
  | .seq a b => a.nullable && b.nullable
  | .alt a b => a.nullable || b.nullable
  | .star _ => true

/-- Brzozowski derivative of a regex by one character. -/
def Regex.deriv : Regex → Char → Regex
  | .emp, _ => .emp
  | .eps, _ => .emp
  | .cls p, c => if p c then .eps else .emp
  | .seq a b, c =>
      if a.nullable then .alt (.seq (a.deriv c) b) (b.deriv c)
      else .seq (a.deriv c) b
  | .alt a b, c => .alt (a.deriv c) (b.deriv c)
  | .star a, c => .seq (a.deriv c) (.star a)

/-- Iterated derivative by a list of characters. -/
def Regex.derivs (r : Regex) (cs : List Char) : Regex :=
  cs.foldl Regex.deriv r

/-- Full-string matching on a list of characters: the iterated derivative is
nullable exactly when the whole input is in the language. -/
def Regex.accepts (r : Regex) (cs : List Char) : Bool :=
  (r.derivs cs).nullable

/-- Modelled from the spec: the Allowed-Value Matcher's regex branch performs a
full-string (anchored) match of the string form of the candidate value
(spec section 4.1); the matching itself lives in the missing
`param_types.py`. -/
def matchFull (r : Regex) (s : String) : Bool :=
  r.accepts s.data

/-- Semantic membership: the proposition that `r` accepts exactly `cs`. -/
def Mr (r : Regex) (cs : List Char) : Prop :=
  r.accepts cs = true

theorem Mr_nil {r : Regex} : Mr r [] ↔ r.nullable = true := Iff.rfl

theorem Mr_cons {r : Regex} {c : Char} {cs : List Char} :
    Mr r (c :: cs) ↔ Mr (r.deriv c) cs := Iff.rfl

theorem derivs_emp (cs : List Char) : Regex.emp.derivs cs = .emp := by
  induction cs with
  | nil => rfl
  | cons c cs ih => simpa [Regex.derivs, Regex.deriv] using ih

theorem Mr_emp {cs : List Char} : ¬ Mr .emp cs := by
  intro h
  simp only [Mr, Regex.accepts, derivs_emp] at h
  exact absurd h (by simp [Regex.nullable])

theorem Mr_eps {cs : List Char} : Mr .eps cs ↔ cs = [] := by
  cases cs with
  | nil => simp [Mr, Regex.accepts, Regex.derivs, Regex.nullable]
  | cons c cs =>
      simp only [Mr_cons, Regex.deriv]
      constructor
      · intro h; exact absurd h Mr_emp
      · intro h; cases h

theorem Mr_cls {p : Char → Bool} {cs : List Char} :
    Mr (.cls p) cs ↔ ∃ c, cs = [c] ∧ p c = true := by
  cases cs with
  | nil =>
      simp only [Mr_nil, Regex.nullable]
      constructor
      · intro h; cases h
      · rintro ⟨c, h, _⟩; cases h
  | cons c cs =>
      simp only [Mr_cons, Regex.deriv]
      by_cases hp : p c = true
      · rw [if_pos hp, Mr_eps]
        constructor
        · intro h; subst h; exact ⟨c, rfl, hp⟩
        · rintro ⟨d, hd, _⟩
          injection hd with h1 h2
      · rw [if_neg hp]
        constructor
        · intro h; exact absurd h Mr_emp
        · rintro ⟨d, hd, hpd⟩
          injection hd with h1 h2
          subst h1
          exact absurd hpd hp

theorem derivs_alt (a b : Regex) (cs : List Char) :
    (Regex.alt a b).derivs cs = .alt (a.derivs cs) (b.derivs cs) := by
  induction cs generalizing a b with
  | nil => rfl
  | cons c cs ih => simpa [Regex.derivs, Regex.deriv] using ih (a.deriv c) (b.deriv c)

theorem Mr_alt {a b : Regex} {cs : List Char} :
    Mr (.alt a b) cs ↔ Mr a cs ∨ Mr b cs := by
  simp [Mr, Regex.accepts, derivs_alt, Regex.nullable]

theorem Mr_seq {a b : Regex} {cs : List Char} :
    Mr (.seq a b) cs ↔ ∃ u v, cs = u ++ v ∧ Mr a u ∧ Mr b v := by
  induction cs generalizing a with
  | nil =>
      constructor
      · intro h
        have h' : a.nullable = true ∧ b.nullable = true := by
          simpa [Mr_nil, Regex.nullable, Bool.and_eq_true] using h
        exact ⟨[], [], rfl, Mr_nil.2 h'.1, Mr_nil.2 h'.2⟩
      · rintro ⟨u, v, huv, hu, hv⟩
        rcases List.append_eq_nil.1 huv.symm with ⟨hu0, hv0⟩
        subst hu0; subst hv0
        have := And.intro (Mr_nil.1 hu) (Mr_nil.1 hv)
        simpa [Mr_nil, Regex.nullable, Bool.and_eq_true] using this
  | cons c cs ih =>
      by_cases hna : a.nullable = true
      · have hder : (Regex.seq a b).deriv c = .alt (.seq (a.deriv c) b) (b.deriv c) := by
          simp [Regex.deriv, hna]
        rw [Mr_cons, hder, Mr_alt, ih]
        constructor
        · rintro (⟨u, v, huv, hu, hv⟩ | h)
          · exact ⟨c :: u, v, by simp [huv], Mr_cons.2 hu, hv⟩
          · exact ⟨[], c :: cs, rfl, Mr_nil.2 hna, Mr_cons.2 h⟩
        · rintro ⟨u, v, huv, hu, hv⟩
          cases u with
          | nil =>
              right
              have : v = c :: cs := by simpa using huv.symm
              subst this
              exact Mr_cons.1 hv
          | cons d u =>
              left
              injection huv with h1 h2
              subst h1
              exact ⟨u, v, h2, Mr_cons.1 hu, hv⟩
      · have hder : (Regex.seq a b).deriv c = .seq (a.deriv c) b := by
          simp [Regex.deriv, hna]
        rw [Mr_cons, hder, ih]
        constructor
        · rintro ⟨u, v, huv, hu, hv⟩
          exact ⟨c :: u, v, by simp [huv], Mr_cons.2 hu, hv⟩
        · rintro ⟨u, v, huv, hu, hv⟩
          cases u with
          | nil =>
              exfalso
              exact hna (Mr_nil.1 hu)
          | cons d u =>
              injection huv with h1 h2
              subst h1
              exact ⟨u, v, h2, Mr_cons.1 hu, hv⟩

/-- The regex accepting exactly the character `c` (a literal character). -/
def charR (c : Char) : Regex := .cls (fun x => x == c)

/-- The regex accepting exactly the list of characters `l` (a literal word). -/
def chainR (l : List Char) : Regex := l.foldr (fun c r => .seq (charR c) r) .eps

/-- The regex accepting exactly the literal string `s`. -/
def strR (s : String) : Regex := chainR s.data

/-- Exactly `n` repetitions: the `{n}` quantifier of the source patterns. -/
def repR (r : Regex) : Nat → Regex
  | 0 => .eps
  | n + 1 => .seq r (repR r n)

/-- Zero or one occurrence: the `?` quantifier of the source patterns. -/
def optR (r : Regex) : Regex := .alt r .eps

/-- One or more occurrences: the `+` quantifier of the source patterns. -/
def plusR (r : Regex) : Regex := .seq r (.star r)

/-- One to three occurrences: the `{1,3}` quantifier of the source patterns.
Acceptance of `r{1,3}` coincides with that of `r (r?) (r?)`. -/
def rep13 (r : Regex) : Regex := .seq r (.seq (optR r) (optR r))

theorem Mr_charR {c : Char} {cs : List Char} : Mr (charR c) cs ↔ cs = [c] := by
  rw [charR, Mr_cls]
  constructor
  · rintro ⟨d, rfl, hd⟩
    have : d = c := by simpa using hd
    rw [this]
  · rintro rfl
    exact ⟨c, rfl, by simp⟩

theorem Mr_chainR {l cs : List Char} : Mr (chainR l) cs ↔ cs = l := by
  induction l generalizing cs with
  | nil => simpa [chainR] using Mr_eps
  | cons c l ih =>
      rw [show chainR (c :: l) = .seq (charR c) (chainR l) from rfl, Mr_seq]
      constructor
      · rintro ⟨u, v, rfl, hu, hv⟩
        rw [Mr_charR.1 hu, ih.1 hv]
        rfl
      · rintro rfl
        exact ⟨[c], l, rfl, Mr_charR.2 rfl, ih.2 rfl⟩

theorem Mr_strR {s : String} {cs : List Char} : Mr (strR s) cs ↔ cs = s.data :=
  Mr_chainR

theorem Mr_repR_cls {p : Char → Bool} {n : Nat} {cs : List Char} :
    Mr (repR (.cls p) n) cs ↔ cs.length = n ∧ ∀ c ∈ cs, p c = true := by
  induction n generalizing cs with
  | zero =>
      rw [repR, Mr_eps]
      constructor
      · rintro rfl; simp
      · rintro ⟨h, _⟩
        exact List.length_eq_zero.1 h
  | succ n ih =>
      rw [repR, Mr_seq]
      constructor
      · rintro ⟨u, v, rfl, hu, hv⟩
        rcases Mr_cls.1 hu with ⟨c, rfl, hc⟩
        rcases ih.1 hv with ⟨hlen, hall⟩
        refine ⟨by simp [hlen], ?_⟩
        intro d hd
        rcases List.mem_cons.1 hd with rfl | hd'
        · exact hc
        · exact hall d hd'
      · rintro ⟨hlen, hall⟩
        cases cs with
        | nil => cases hlen
        | cons c cs =>
            refine ⟨[c], cs, rfl, Mr_cls.2 ⟨c, rfl, hall c (by simp)⟩, ih.2 ⟨by simpa using hlen, ?_⟩⟩
            intro d hd
            exact hall d (List.mem_cons_of_mem c hd)

/-- The character class `[0-9]`, also the shorthand `\d`, of the source
patterns. -/
def digitC (c : Char) : Bool := decide ('0' ≤ c) && decide (c ≤ '9')

/-- The character class `[0-9a-z]` of the source patterns. -/
def lowAlnumC (c : Char) : Bool := digitC c || (decide ('a' ≤ c) && decide (c ≤ 'z'))

/-- A character-range class `[lo-hi]` of the source patterns. -/
def rngR (lo hi : Char) : Regex := .cls (fun c => decide (lo ≤ c) && decide (c ≤ hi))

/-- The pattern `\d{1,3}` (used four times inside the `cidr` pattern). -/
def d13 : Regex := rep13 (.cls digitC)

/-- `ALLOWED_VALUES["cidr"]` of `mappings.py`:
`^\d{1,3}\.\d{1,3}\.\d{1,3}\.\d{1,3}/(0|1[6-9]|2[0-9]|3[0-2])$`. -/
def cidrRegex : Regex :=
  .seq d13 (.seq (charR '.')
    (.seq d13 (.seq (charR '.')
      (.seq d13 (.seq (charR '.')
        (.seq d13 (.seq (charR '/')
          (.alt (charR '0')
            (.alt (.seq (charR '1') (rngR '6' '9'))
              (.alt (.seq (charR '2') (rngR '0' '9'))
                (.seq (charR '3') (rngR '0' '2'))))))))))))

/-- `ALLOWED_VALUES["greater_than_20"]` of `mappings.py`:
`^([0-9]+[0-9]{2}|[2-9][0-9])$`. -/
def greaterThan20Regex : Regex :=
  .alt (.seq (plusR (.cls digitC)) (repR (.cls digitC) 2))
    (.seq (rngR '2' '9') (.cls digitC))

/-- The shape shared by the AWS resource-identifier patterns of `mappings.py`:
`^PRE[0-9a-z]{8}$|^PRE[0-9a-z]{17}$` for a literal prefix `PRE`
(`sg-`, `subnet-`, `vpc-`, `snap-`, `vol-`, `ami-`). -/
def idRegex (pre : String) : Regex :=
  .alt (.seq (strR pre) (repR (.cls lowAlnumC) 8))
    (.seq (strR pre) (repR (.cls lowAlnumC) 17))

/-- `ALLOWED_VALUES["security_group_id"]`: `^sg-[0-9a-z]{8}$|^sg-[0-9a-z]{17}$`. -/
def securityGroupIdRegex : Regex := idRegex "sg-"

/-- `ALLOWED_VALUES["subnet_id"]`: `^subnet-[0-9a-z]{8}$|^subnet-[0-9a-z]{17}$`. -/
def subnetIdRegex : Regex := idRegex "subnet-"

/-- The `vpc_id` pattern of the VPC section of `mappings.py`:
`^vpc-[0-9a-z]{8}$|^vpc-[0-9a-z]{17}$`. -/
def vpcIdRegex : Regex := idRegex "vpc-"

/-- The `ebs_snapshot_id` pattern of the EBS section of `mappings.py`:
`^snap-[0-9a-z]{8}$|^snap-[0-9a-z]{17}$`. -/
def ebsSnapshotIdRegex : Regex := idRegex "snap-"

/-- The `ebs_volume_id` pattern of the EBS section of `mappings.py`:
`^vol-[0-9a-z]{8}$|^vol-[0-9a-z]{17}$`. -/
def ebsVolumeIdRegex : Regex := idRegex "vol-"

/-- The `custom_ami` pattern of the CLUSTER section of `mappings.py`:
`^ami-[0-9a-z]{8}$|^ami-[0-9a-z]{17}$`. -/
def customAmiRegex : Regex := idRegex "ami-"

/-- The `efs_fs_id` pattern of the EFS section of `mappings.py`:
`^fs-[0-9a-z]{8}$|^fs-[0-9a-z]{17}|NONE$`.  Note the second alternation
branch carries no closing `$` and the third no opening `^`; under the
full-string matching of spec section 4.1 both assertions are identities. -/
def efsFsIdRegex : Regex :=
  .alt (.seq (strR "fs-") (repR (.cls lowAlnumC) 8))
    (.alt (.seq (strR "fs-") (repR (.cls lowAlnumC) 17)) (strR "NONE"))

/-- The `fsx_fs_id` pattern of the FSX section of `mappings.py`:
`^fs-[0-9a-z]{17}|NONE$` (same remark on the interior `^`/`$`). -/
def fsxFsIdRegex : Regex :=
  .alt (.seq (strR "fs-") (repR (.cls lowAlnumC) 17)) (strR "NONE")

/-- The `provisioned_throughput` pattern of the EFS section of `mappings.py`:
`^([0-9]{1,3}|10[0-1][0-9]|102[0-4])(\.[0-9])?$` (0.0 to 1024.0). -/
def provisionedThroughputRegex : Regex :=
  .seq (.alt (rep13 (.cls digitC))
      (.alt (.seq (strR "10") (.seq (rngR '0' '1') (.cls digitC)))
        (.seq (strR "102") (rngR '0' '4'))))
    (optR (.seq (charR '.') (.cls digitC)))

/-- The `num_of_raid_volumes` pattern of the RAID section of `mappings.py`:
`^[1-5]$`. -/
def numOfRaidVolumesRegex : Regex := rngR '1' '5'

/-- The `spot_bid_percentage` pattern of the CLUSTER section of `mappings.py`:
`^(100|[1-9][0-9]|[0-9])$` (0 <= value <= 100). -/
def spotBidPercentageRegex : Regex :=
  .alt (strR "100") (.alt (.seq (rngR '1' '9') (.cls digitC)) (.cls digitC))

/-! Decimal numerals.  The missing `param_types.py` converts parameter values
with Python's `int`/`float`/`str`; the functions below model the decimal
numeral forms those conversions read and write. -/

/-- The decimal digit character for `d < 10`. -/
def digitChar (d : Nat) : Char := Char.ofNat (48 + d)

/-- Decimal digits of a natural number, most significant first. -/
def natDigits (n : Nat) : List Char :=
  if _h : n < 10 then [digitChar n]
  else natDigits (n / 10) ++ [digitChar (n % 10)]
  decreasing_by exact Nat.div_lt_self (by omega) (by omega)

/-- Numeric value of a digit character. -/
def digitVal (c : Char) : Nat := c.toNat - 48

/-- Value of a digit list, most significant first. -/
def readNat (cs : List Char) : Nat := cs.foldl (fun a c => a * 10 + digitVal c) 0

/-- Modelled from the spec: numeric-string coercion of an unsigned integer
(section 4.3, "numeric string → int"); `none` is a coercion failure. -/
def parseNatCore (cs : List Char) : Option Nat :=
  if cs ≠ [] ∧ cs.all digitC then some (readNat cs) else none

theorem digitC_digitChar {d : Nat} (h : d < 10) : digitC (digitChar d) = true := by
  interval_cases d <;> decide

theorem digitVal_digitChar {d : Nat} (h : d < 10) : digitVal (digitChar d) = d := by
  interval_cases d <;> decide

theorem natDigits_ne_nil (n : Nat) : natDigits n ≠ [] := by
  rw [natDigits]
  split
  · simp
  · simp

theorem natDigits_all_digit (n : Nat) : ∀ c ∈ natDigits n, digitC c = true := by
  induction n using Nat.strong_induction_on with
  | _ n ih =>
      rw [natDigits]
      split
      · intro c hc
        rw [List.mem_singleton] at hc
        subst hc
        exact digitC_digitChar (by omega)
      · intro c hc
        rcases List.mem_append.1 hc with h1 | h2
        · exact ih (n / 10) (Nat.div_lt_self (by omega) (by omega)) c h1
        · rw [List.mem_singleton] at h2
          subst h2
          exact digitC_digitChar (Nat.mod_lt _ (by omega))

theorem readNat_append_digit (l : List Char) (c : Char) :
    readNat (l ++ [c]) = readNat l * 10 + digitVal c := by
  simp [readNat, List.foldl_append]

theorem readNat_natDigits (n : Nat) : readNat (natDigits n) = n := by
  induction n using Nat.strong_induction_on with
  | _ n ih =>
      rw [natDigits]
      split
      · rename_i h
        simp [readNat, digitVal_digitChar h]
      · rename_i h
        rw [readNat_append_digit, ih (n / 10) (Nat.div_lt_self (by omega) (by omega)),
          digitVal_digitChar (Nat.mod_lt _ (by omega))]
        omega

theorem parseNatCore_natDigits (n : Nat) : parseNatCore (natDigits n) = some n := by
  rw [parseNatCore, if_pos ⟨natDigits_ne_nil n, List.all_eq_true.2 (natDigits_all_digit n)⟩,
    readNat_natDigits]

/-- Modelled from the spec: the canonical text form of an integer value
(section 4.3, `to_file_value` is the inverse coercion). -/
def intToStr (i : Int) : String :=
  if i < 0 then String.mk ('-' :: natDigits i.natAbs) else String.mk (natDigits i.natAbs)

/-- Modelled from the spec: integer coercion of a signed decimal string
(Python `int(text)`; an optional sign followed by digits). -/
def parseIntRaw (cs : List Char) : Option Int :=
  match cs with
  | [] => none
  | c :: rest =>
      if c = '-' then (parseNatCore rest).map (fun n => -(n : Int))
      else if c = '+' then (parseNatCore rest).map (fun n => (n : Int))
      else (parseNatCore (c :: rest)).map (fun n => (n : Int))

theorem natDigits_head_digit (n : Nat) :
    ∃ c rest, natDigits n = c :: rest ∧ digitC c = true := by
  cases h : natDigits n with
  | nil => exact absurd h (natDigits_ne_nil n)
  | cons c rest =>
      exact ⟨c, rest, rfl, natDigits_all_digit n c (by rw [h]; simp)⟩

theorem ne_of_digit {c d : Char} (hc : digitC c = true) (hd : digitC d = false) :
    c ≠ d := by
  intro h
  subst h
  rw [hc] at hd
  cases hd

theorem parseIntRaw_intToStr (i : Int) : parseIntRaw (intToStr i).data = some i := by
  rw [intToStr]
  by_cases hi : i < 0
  · rw [if_pos hi]
    show parseIntRaw ('-' :: natDigits i.natAbs) = some i
    rw [parseIntRaw]
    rw [if_pos rfl, parseNatCore_natDigits]
    show some (-(i.natAbs : Int)) = some i
    congr 1
    omega
  · rw [if_neg hi]
    show parseIntRaw (natDigits i.natAbs) = some i
    obtain ⟨c, rest, heq, hc⟩ := natDigits_head_digit i.natAbs
    rw [heq, parseIntRaw]
    rw [if_neg (ne_of_digit hc (by decide)), if_neg (ne_of_digit hc (by decide)), ← heq,
      parseNatCore_natDigits]
    show some ((i.natAbs : Int)) = some i
    congr 1
    omega

/-- Modelled from the spec: the typed value of a float parameter
(section 4.3, "numeric string → int/float").  The model keeps the decimal
form exactly: a sign, an integer part and the fraction digits with trailing
zeros normalised away at coercion time, so that two source texts denote the
same value exactly when they denote the same decimal number.  Exponent
notation and the special float tokens are outside the model. -/
structure FloatVal where
  neg : Bool
  ip : Nat
  frac : List Char
deriving DecidableEq

/-- Split a character list at its first dot: integer part and fraction part. -/
def breakDot : List Char → Option (List Char × List Char)
  | [] => none
  | c :: rest =>
      if c = '.' then some ([], rest)
      else (breakDot rest).map (fun p => (c :: p.1, p.2))

/-- Drop the trailing `'0'` characters of a fraction part. -/
def stripTrailingZeros (cs : List Char) : List Char :=
  List.rdropWhile (fun c => c = '0') cs

/-- Unsigned decimal-float coercion: digits, optionally a dot and fraction
digits. -/
def parseFloatCore (cs : List Char) : Option (Nat × List Char) :=
  match breakDot cs with
  | none => (parseNatCore cs).map (fun n => (n, []))
  | some (ip, fp) =>
      if ip ≠ [] ∧ ip.all digitC ∧ fp.all digitC then
        some (readNat ip, stripTrailingZeros fp)
      else none

/-- Modelled from the spec: float coercion of a decimal string
(Python `float(text)`; an optional sign, digits, an optional fraction). -/
def parseFloatRaw (cs : List Char) : Option FloatVal :=
  match cs with
  | [] => none
  | c :: rest =>
      if c = '-' then (parseFloatCore rest).map (fun p => ⟨true, p.1, p.2⟩)
      else if c = '+' then (parseFloatCore rest).map (fun p => ⟨false, p.1, p.2⟩)
      else (parseFloatCore (c :: rest)).map (fun p => ⟨false, p.1, p.2⟩)

/-- Modelled from the spec: the canonical text form of a float value
(Python `str(float)`: sign, integer part, a dot, fraction digits with `0`
for an integral value). -/
def floatToStr (v : FloatVal) : String :=
  String.mk ((if v.neg then ['-'] else []) ++ natDigits v.ip ++ '.' ::
    (if v.frac = [] then ['0'] else v.frac))

theorem breakDot_append {l : List Char} (r : List Char) (h : ∀ c ∈ l, c ≠ '.') :
    breakDot (l ++ '.' :: r) = some (l, r) := by
  induction l with
  | nil => simp [breakDot]
  | cons c l ih =>
      have hc : c ≠ '.' := h c (by simp)
      rw [List.cons_append, breakDot, if_neg hc,
        ih (fun d hd => h d (List.mem_cons_of_mem c hd))]
      rfl

theorem parseFloatCore_breakDot {cs l r : List Char} (h : breakDot cs = some (l, r)) :
    parseFloatCore cs =
      if l ≠ [] ∧ l.all digitC ∧ r.all digitC then
        some (readNat l, stripTrailingZeros r)
      else none := by
  rw [parseFloatCore.eq_def, h]

theorem parseFloatCore_floatToStr (ip : Nat) (frac : List Char)
    (hd : frac.all digitC = true) (hs : stripTrailingZeros frac = frac) :
    parseFloatCore (natDigits ip ++ '.' :: (if frac = [] then ['0'] else frac)) =
      some (ip, frac) := by
  have hnd : ∀ c ∈ natDigits ip, c ≠ '.' :=
    fun c hc => ne_of_digit (natDigits_all_digit ip c hc) (by decide)
  by_cases hf : frac = []
  · subst hf
    rw [if_pos rfl, parseFloatCore_breakDot (breakDot_append ['0'] hnd),
      if_pos ⟨natDigits_ne_nil ip, List.all_eq_true.2 (natDigits_all_digit ip), by decide⟩,
      readNat_natDigits]
    rfl
  · rw [if_neg hf, parseFloatCore_breakDot (breakDot_append frac hnd),
      if_pos ⟨natDigits_ne_nil ip, List.all_eq_true.2 (natDigits_all_digit ip), hd⟩,
      readNat_natDigits, hs]

theorem parseFloatRaw_floatToStr (v : FloatVal) (hd : v.frac.all digitC = true)
    (hs : stripTrailingZeros v.frac = v.frac) :
    parseFloatRaw (floatToStr v).data = some v := by
  obtain ⟨neg, ip, frac⟩ := v
  cases neg with
  | true =>
      show parseFloatRaw ('-' :: (natDigits ip ++ '.' :: _)) = _
      rw [parseFloatRaw, if_pos rfl, parseFloatCore_floatToStr ip frac hd hs]
      rfl
  | false =>
      show parseFloatRaw ([] ++ natDigits ip ++ '.' :: _) = _
      rw [List.nil_append]
      obtain ⟨c, rest, heq, hc⟩ := natDigits_head_digit ip
      rw [heq, List.cons_append, parseFloatRaw, if_neg (ne_of_digit hc (by decide)),
        if_neg (ne_of_digit hc (by decide)), ← List.cons_append, ← heq,
        parseFloatCore_floatToStr ip frac hd hs]
      rfl

/-! Comma-separated lists.  The multi-policy-list parameter coerces its raw
text with Python-style `split(",")`, per-element `strip()` and
deduplication (spec section 4.3). -/

/-- Whitespace characters stripped by Python `str.strip`. -/
def wsC (c : Char) : Bool := c = ' ' || c = '\t' || c = '\n' || c = '\r'

/-- Python `str.strip`: drop leading and trailing whitespace. -/
def trimChars (cs : List Char) : List Char :=
  List.rdropWhile wsC (cs.dropWhile wsC)

/-- Python `str.split(",")`: split at every comma; never returns `[]`. -/
def splitComma : List Char → List (List Char)
  | [] => [[]]
  | c :: rest =>
      if c = ',' then [] :: splitComma rest
      else
        match splitComma rest with
        | [] => [[c]]
        | g :: gs => (c :: g) :: gs

/-- Join with commas, the inverse of `splitComma`. -/
def joinComma : List (List Char) → List Char
  | [] => []
  | [g] => g
  | g :: gs => g ++ ',' :: joinComma gs

theorem splitComma_ne_nil (cs : List Char) : splitComma cs ≠ [] := by
  cases cs with
  | nil => simp [splitComma]
  | cons c rest =>
      rw [splitComma]
      by_cases hc : c = ','
      · rw [if_pos hc]; simp
      · rw [if_neg hc]
        cases h : splitComma rest <;> simp

theorem splitComma_append {g cs p : List Char} {ps : List (List Char)}
    (hg : ∀ c ∈ g, c ≠ ',') (h : splitComma cs = p :: ps) :
    splitComma (g ++ cs) = (g ++ p) :: ps := by
  induction g with
  | nil => simpa using h
  | cons c g ih =>
      have hc : c ≠ ',' := hg c (by simp)
      rw [List.cons_append, splitComma, if_neg hc,
        ih (fun d hd => hg d (List.mem_cons_of_mem c hd))]
      simp

theorem splitComma_joinComma {gs : List (List Char)} (hne : gs ≠ [])
    (h : ∀ g ∈ gs, ∀ c ∈ g, c ≠ ',') : splitComma (joinComma gs) = gs := by
  induction gs with
  | nil => exact absurd rfl hne
  | cons g gs ih =>
      cases gs with
      | nil =>
          show splitComma (joinComma [g]) = [g]
          rw [joinComma]
          have hg : ∀ c ∈ g, c ≠ ',' := h g (by simp)
          have : splitComma ([] : List Char) = [] :: [] := rfl
          simpa using splitComma_append hg this
      | cons g2 gs2 =>
          rw [show joinComma (g :: g2 :: gs2) = g ++ ',' :: joinComma (g2 :: gs2) from rfl]
          have hrest : splitComma (',' :: joinComma (g2 :: gs2)) =
              [] :: (g2 :: gs2) := by
            rw [splitComma, if_pos rfl,
              ih (by simp) (fun x hx => h x (List.mem_cons_of_mem g hx))]
          rw [splitComma_append (h g (by simp)) hrest, List.append_nil]

theorem dropWhile_trimChars (l : List Char) :
    List.dropWhile wsC (trimChars l) = trimChars l := by
  rcases ht : trimChars l with _ | ⟨c, t⟩
  · rfl
  · have hpre : trimChars l <+: List.dropWhile wsC l := by
      rw [trimChars]; exact List.rdropWhile_prefix _ _
    rw [ht] at hpre
    have hlen : 0 < (List.dropWhile wsC l).length :=
      Nat.lt_of_lt_of_le (by simp) hpre.length_le
    have hc : (List.dropWhile wsC l)[0] = c := (hpre.getElem (by simp)).symm
    have hhead : wsC ((List.dropWhile wsC l)[0]) = false := by
      have := List.dropWhile_idempotent wsC l
      rw [List.dropWhile_eq_self_iff] at this
      simpa using this (by simpa using hlen)
    rw [hc] at hhead
    rw [List.dropWhile_cons, hhead]
    simp

theorem trimChars_idempotent (l : List Char) : trimChars (trimChars l) = trimChars l := by
  rw [show trimChars (trimChars l) = List.rdropWhile wsC (List.dropWhile wsC (trimChars l))
      from rfl,
    dropWhile_trimChars, trimChars, List.rdropWhile_idempotent]

/-! Structured JSON values.  The `JsonParam` parameter of the missing
`param_types.py` coerces raw JSON text to a parsed structure and serializes
it back to compact JSON text (spec section 4.3).  The model below covers the
JSON forms null, booleans, integral numerals, strings with quote and
backslash escaping, arrays and objects; fractional or exponent numerals and
unicode escapes are outside the model. -/

mutual
/-- A parsed JSON structure. -/
inductive Json where
  | null : Json
  | bool : Bool → Json
  | num : Int → Json
  | str : String → Json
  | arr : JsonList → Json
  | obj : JsonObj → Json
/-- The element list of a JSON array. -/
inductive JsonList where
  | nil : JsonList
  | cons : Json → JsonList → JsonList
/-- The member list of a JSON object. -/
inductive JsonObj where
  | onil : JsonObj
  | ocons : String → Json → JsonObj → JsonObj
end

/-- Escape one character of a JSON string literal. -/
def escChar (c : Char) : List Char :=
  if c = '"' ∨ c = '\\' then ['\\', c] else [c]

/-- Escape every character of a JSON string literal body. -/
def escList : List Char → List Char
  | [] => []
  | c :: rest => escChar c ++ escList rest

/-- Escape the body of a JSON string literal. -/
def escStr (s : String) : List Char := escList s.data

mutual
/-- Modelled from the spec: compact JSON serialization of a parsed value
(section 4.3, "JSON value → compact JSON text"). -/
def printJson : Json → List Char
  | .null => ("null" : String).data
  | .bool true => ("true" : String).data
  | .bool false => ("false" : String).data
  | .num i => (intToStr i).data
  | .str s => '"' :: (escStr s ++ ['"'])
  | .arr xs => '[' :: (printJsonList xs ++ [']'])
  | .obj ms => '\x7b' :: (printJsonObj ms ++ ['\x7d'])
/-- Serialize array elements, comma separated. -/
def printJsonList : JsonList → List Char
  | .nil => []
  | .cons v .nil => printJson v
  | .cons v (.cons w tl) => printJson v ++ ',' :: printJsonList (.cons w tl)
/-- Serialize object members, comma separated, `"key":value` each. -/
def printJsonObj : JsonObj → List Char
  | .onil => []
  | .ocons k v .onil => '"' :: (escStr k ++ '"' :: ':' :: printJson v)
  | .ocons k v (.ocons k2 v2 tl) =>
      '"' :: (escStr k ++ '"' :: ':' :: (printJson v ++ ',' ::
        printJsonObj (.ocons k2 v2 tl)))
end

/-- Drop leading whitespace. -/
def skipWs (cs : List Char) : List Char := cs.dropWhile wsC

/-- Read a JSON string literal body up to its closing quote, undoing the
quote and backslash escapes. -/
def parseStrBody : List Char → Option (List Char × List Char)
  | [] => none
  | c :: rest =>
      if c = '"' then some ([], rest)
      else if c = '\\' then
        match rest with
        | [] => none
        | d :: rest2 =>
            if d = '"' ∨ d = '\\' then
              (parseStrBody rest2).map (fun p => (d :: p.1, p.2))
            else none
      else (parseStrBody rest).map (fun p => (c :: p.1, p.2))

/-- Read an integral JSON numeral: an optional minus sign and digits. -/
def parseJsonNum (cs : List Char) : Option (Int × List Char) :=
  match cs with
  | [] => none
  | c :: rest =>
      if c = '-' then
        if rest.takeWhile digitC = [] then none
        else some (-(readNat (rest.takeWhile digitC) : Int), rest.dropWhile digitC)
      else
        if cs.takeWhile digitC = [] then none
        else some ((readNat (cs.takeWhile digitC) : Int), cs.dropWhile digitC)

mutual
/-- Modelled from the spec: recursive-descent reading of one JSON value
(Python `json.loads`); the fuel argument bounds the recursion and is chosen
large enough by `parseJsonTop`. -/
def parseJsonVal : Nat → List Char → Option (Json × List Char)
  | 0, _ => none
  | fuel + 1, cs =>
      match skipWs cs with
      | [] => none
      | c :: rest =>
          if c = 'n' then
            if rest.take 3 = ['u', 'l', 'l'] then some (.null, rest.drop 3) else none
          else if c = 't' then
            if rest.take 3 = ['r', 'u', 'e'] then some (.bool true, rest.drop 3) else none
          else if c = 'f' then
            if rest.take 4 = ['a', 'l', 's', 'e'] then some (.bool false, rest.drop 4)
            else none
          else if c = '"' then
            (parseStrBody rest).map (fun p => (.str (String.mk p.1), p.2))
          else if c = '[' then
            match skipWs rest with
            | [] => none
            | d :: rest2 =>
                if d = ']' then some (.arr .nil, rest2)
                else
                  match parseJsonItems fuel (d :: rest2) with
                  | none => none
                  | some (xs, rest3) =>
                      match skipWs rest3 with
                      | [] => none
                      | e :: rest4 => if e = ']' then some (.arr xs, rest4) else none
          else if c = '\x7b' then
            match skipWs rest with
            | [] => none
            | d :: rest2 =>
                if d = '\x7d' then some (.obj .onil, rest2)
                else
                  match parseJsonMembers fuel (d :: rest2) with
                  | none => none
                  | some (ms, rest3) =>
                      match skipWs rest3 with
                      | [] => none
                      | e :: rest4 => if e = '\x7d' then some (.obj ms, rest4) else none
          else
            (parseJsonNum (c :: rest)).map (fun p => (.num p.1, p.2))
/-- Read one or more comma-separated JSON array elements. -/
def parseJsonItems : Nat → List Char → Option (JsonList × List Char)
  | 0, _ => none
  | fuel + 1, cs =>
      match parseJsonVal fuel cs with
      | none => none
      | some (v, rest) =>
          match skipWs rest with
          | [] => some (.cons v .nil, rest)
          | c :: rest2 =>
              if c = ',' then
                match parseJsonItems fuel rest2 with
                | none => none
                | some (p, rest3) => some (.cons v p, rest3)
              else some (.cons v .nil, rest)
/-- Read one or more comma-separated JSON object members. -/
def parseJsonMembers : Nat → List Char → Option (JsonObj × List Char)
  | 0, _ => none
  | fuel + 1, cs =>
      match skipWs cs with
      | [] => none
      | c :: rest =>
          if c = '"' then
            match parseStrBody rest with
            | none => none
            | some (k, rest2) =>
                match skipWs rest2 with
                | [] => none
                | d :: rest3 =>
                    if d = ':' then
                      match parseJsonVal fuel rest3 with
                      | none => none
                      | some (v, rest4) =>
                          match skipWs rest4 with
                          | [] => some (.ocons (String.mk k) v .onil, rest4)
                          | e :: rest5 =>
                              if e = ',' then
                                match parseJsonMembers fuel rest5 with
                                | none => none
                                | some (ms, rest6) =>
                                    some (.ocons (String.mk k) v ms, rest6)
                              else some (.ocons (String.mk k) v .onil, rest4)
                    else none
          else none
end

/-- Modelled from the spec: JSON coercion of a whole raw text
(Python `json.loads`): one value, optionally surrounded by whitespace. -/
def parseJsonTop (s : String) : Option Json :=
  match parseJsonVal (2 * s.length + 1) s.data with
  | none => none
  | some (v, rest) => if skipWs rest = [] then some v else none

theorem skipWs_cons_false {c : Char} {l : List Char} (h : wsC c = false) :
    skipWs (c :: l) = c :: l := by
  rw [skipWs, List.dropWhile_cons, h]
  simp

theorem stringMk_data (s : String) : String.mk s.data = s := by
  cases s
  rfl

theorem takeWhile_append_of_all {p : Char → Bool} {l rest : List Char}
    (h1 : ∀ c ∈ l, p c = true) (h2 : ∀ c, rest.head? = some c → p c = false) :
    (l ++ rest).takeWhile p = l := by
  induction l with
  | nil =>
      cases rest with
      | nil => rfl
      | cons c r =>
          simp only [List.nil_append, List.takeWhile_cons, h2 c rfl]
          simp
  | cons c l ih =>
      rw [List.cons_append, List.takeWhile_cons, h1 c (by simp),
        ih (fun d hd => h1 d (List.mem_cons_of_mem c hd))]
      simp

theorem dropWhile_append_of_all {p : Char → Bool} {l rest : List Char}
    (h1 : ∀ c ∈ l, p c = true) (h2 : ∀ c, rest.head? = some c → p c = false) :
    (l ++ rest).dropWhile p = rest := by
  induction l with
  | nil =>
      cases rest with
      | nil => rfl
      | cons c r =>
          simp only [List.nil_append, List.dropWhile_cons, h2 c rfl]
          simp
  | cons c l ih =>
      rw [List.cons_append, List.dropWhile_cons, h1 c (by simp)]
      · simp only [if_true]
        exact ih (fun d hd => h1 d (List.mem_cons_of_mem c hd))

theorem parseStrBody_quote (rest : List Char) : parseStrBody ('"' :: rest) = some ([], rest) := by
  rw [parseStrBody.eq_def]
  simp

theorem parseStrBody_esc (d : Char) (rest2 : List Char) (hd : d = '"' ∨ d = '\\') :
    parseStrBody ('\\' :: d :: rest2) = (parseStrBody rest2).map (fun p => (d :: p.1, p.2)) := by
  show (if d = '"' ∨ d = '\\' then (parseStrBody rest2).map (fun p => (d :: p.1, p.2))
    else none) = _
  rw [if_pos hd]

theorem parseStrBody_plain (c : Char) (rest : List Char) (h1 : c ≠ '"') (h2 : c ≠ '\\') :
    parseStrBody (c :: rest) = (parseStrBody rest).map (fun p => (c :: p.1, p.2)) := by
  rw [parseStrBody.eq_def]
  simp only [List.cons.injEq]
  rw [if_neg h1, if_neg h2]

theorem parseStrBody_escList (l rest : List Char) :
    parseStrBody (escList l ++ '"' :: rest) = some (l, rest) := by
  induction l with
  | nil =>
      show parseStrBody ('"' :: rest) = some ([], rest)
      exact parseStrBody_quote rest
  | cons c l ih =>
      show parseStrBody (escChar c ++ escList l ++ '"' :: rest) = some (c :: l, rest)
      rw [escChar]
      by_cases hc : c = '"' ∨ c = '\\'
      · rw [if_pos hc]
        show parseStrBody ('\\' :: c :: (escList l ++ '"' :: rest)) = some (c :: l, rest)
        rw [parseStrBody_esc c _ hc, ih]
        rfl
      · rw [if_neg hc]
        push_neg at hc
        show parseStrBody (c :: (escList l ++ '"' :: rest)) = some (c :: l, rest)
        rw [parseStrBody_plain c _ hc.1 hc.2, ih]
        rfl

theorem wsC_false_of_digit {c : Char} (h : digitC c = true) : wsC c = false := by
  have h1 : c ≠ ' ' := ne_of_digit h (by decide)
  have h2 : c ≠ '\t' := ne_of_digit h (by decide)
  have h3 : c ≠ '\n' := ne_of_digit h (by decide)
  have h4 : c ≠ '\r' := ne_of_digit h (by decide)
  simp [wsC, h1, h2, h3, h4]

theorem intToStr_head (i : Int) :
    ∃ c t, (intToStr i).data = c :: t ∧ (c = '-' ∨ digitC c = true) := by
  rw [intToStr]
  by_cases hi : i < 0
  · rw [if_pos hi]
    exact ⟨'-', natDigits i.natAbs, rfl, Or.inl rfl⟩
  · rw [if_neg hi]
    obtain ⟨c, t, heq, hc⟩ := natDigits_head_digit i.natAbs
    exact ⟨c, t, by rw [heq], Or.inr hc⟩

theorem parseJsonNum_intToStr (i : Int) (rest : List Char)
    (hg : ∀ c, rest.head? = some c → digitC c = false) :
    parseJsonNum ((intToStr i).data ++ rest) = some (i, rest) := by
  rw [intToStr]
  by_cases hi : i < 0
  · rw [if_pos hi]
    show parseJsonNum ('-' :: (natDigits i.natAbs ++ rest)) = some (i, rest)
    rw [parseJsonNum, if_pos rfl,
      takeWhile_append_of_all (natDigits_all_digit i.natAbs) hg,
      dropWhile_append_of_all (natDigits_all_digit i.natAbs) hg,
      if_neg (natDigits_ne_nil i.natAbs), readNat_natDigits]
    congr 2
    omega
  · rw [if_neg hi]
    obtain ⟨c, t, heq, hc⟩ := natDigits_head_digit i.natAbs
    show parseJsonNum (natDigits i.natAbs ++ rest) = some (i, rest)
    rw [heq, List.cons_append, parseJsonNum, if_neg (ne_of_digit hc (by decide)),
      ← List.cons_append, ← heq,
      takeWhile_append_of_all (natDigits_all_digit i.natAbs) hg,
      dropWhile_append_of_all (natDigits_all_digit i.natAbs) hg,
      if_neg (natDigits_ne_nil i.natAbs), readNat_natDigits]
    congr 2
    omega

theorem printJson_head (v : Json) :
    ∃ c t, printJson v = c :: t ∧ wsC c = false ∧ c ≠ ']' ∧ c ≠ '\x7d' := by
  cases v with
  | num i =>
      obtain ⟨c, t, heq, hc⟩ := intToStr_head i
      refine ⟨c, t, by rw [printJson, heq], ?_, ?_, ?_⟩
      · rcases hc with rfl | hd
        · decide
        · exact wsC_false_of_digit hd
      · rcases hc with rfl | hd
        · decide
        · exact ne_of_digit hd (by decide)
      · rcases hc with rfl | hd
        · decide
        · exact ne_of_digit hd (by decide)
  | bool b => cases b <;> [skip; skip] <;> refine ⟨_, _, rfl, ?_, ?_, ?_⟩ <;> decide
  | null => refine ⟨_, _, rfl, ?_, ?_, ?_⟩ <;> decide
  | str s => refine ⟨_, _, rfl, ?_, ?_, ?_⟩ <;> decide
  | arr xs => refine ⟨_, _, rfl, ?_, ?_, ?_⟩ <;> decide
  | obj ms => refine ⟨_, _, rfl, ?_, ?_, ?_⟩ <;> decide

/-- Guard for the input following a printed value: it must not begin with a
digit (so a numeral token ends where the printed numeral ends). -/
def restGuardV (rest : List Char) : Prop :=
  ∀ c, rest.head? = some c → digitC c = false

/-- Guard for the input following printed elements or members: it must not
begin with a digit, whitespace or a comma (so an element list ends where the
printed list ends). -/
def restGuardI (rest : List Char) : Prop :=
  ∀ c, rest.head? = some c → digitC c = false ∧ wsC c = false ∧ c ≠ ','

/-- Round-trip statement for one JSON value at a given fuel. -/
def SJv (fuel : Nat) : Prop :=
  ∀ (v : Json) (rest : List Char),
    2 * (printJson v ++ rest).length + 1 ≤ fuel → restGuardV rest →
    parseJsonVal fuel (printJson v ++ rest) = some (v, rest)

/-- Round-trip statement for nonempty array elements at a given fuel. -/
def SJi (fuel : Nat) : Prop :=
  ∀ (xs : JsonList) (rest : List Char), xs ≠ .nil →
    2 * (printJsonList xs ++ rest).length + 2 ≤ fuel → restGuardI rest →
    parseJsonItems fuel (printJsonList xs ++ rest) = some (xs, rest)

/-- Round-trip statement for nonempty object members at a given fuel. -/
def SJm (fuel : Nat) : Prop :=
  ∀ (ms : JsonObj) (rest : List Char), ms ≠ .onil →
    2 * (printJsonObj ms ++ rest).length + 2 ≤ fuel → restGuardI rest →
    parseJsonMembers fuel (printJsonObj ms ++ rest) = some (ms, rest)

theorem numHead_facts {c : Char} (hc : c = '-' ∨ digitC c = true) :
    wsC c = false ∧ c ≠ 'n' ∧ c ≠ 't' ∧ c ≠ 'f' ∧ c ≠ '"' ∧ c ≠ '[' ∧ c ≠ '\x7b' := by
  rcases hc with rfl | hd
  · exact ⟨by decide, by decide, by decide, by decide, by decide, by decide, by decide⟩
  · exact ⟨wsC_false_of_digit hd, ne_of_digit hd (by decide), ne_of_digit hd (by decide),
      ne_of_digit hd (by decide), ne_of_digit hd (by decide), ne_of_digit hd (by decide),
      ne_of_digit hd (by decide)⟩

theorem printJsonList_head (v : Json) (tl : JsonList) :
    ∃ c t, printJsonList (.cons v tl) = c :: t ∧ wsC c = false ∧ c ≠ ']' ∧ c ≠ '\x7d' := by
  obtain ⟨c, t, heq, hws, h1, h2⟩ := printJson_head v
  cases tl with
  | nil => exact ⟨c, t, by rw [printJsonList, heq], hws, h1, h2⟩
  | cons w tl2 =>
      exact ⟨c, t ++ ',' :: printJsonList (.cons w tl2), by rw [printJsonList, heq]; rfl,
        hws, h1, h2⟩

theorem restGuardI_bracket (rest : List Char) : restGuardI (']' :: rest) := by
  intro c hc
  injection hc with hc
  subst hc
  exact ⟨by decide, by decide, by decide⟩

theorem restGuardI_brace (rest : List Char) : restGuardI ('\x7d' :: rest) := by
  intro c hc
  injection hc with hc
  subst hc
  exact ⟨by decide, by decide, by decide⟩

theorem restGuardV_comma (rest : List Char) : restGuardV (',' :: rest) := by
  intro c hc
  injection hc with hc
  subst hc
  decide

theorem SJv_succ (fuel : Nat) (ihi : SJi fuel) (ihm : SJm fuel) : SJv (fuel + 1) := by
  intro v rest hb hg
  cases v with
  | null =>
      show parseJsonVal (fuel + 1) ('n' :: 'u' :: 'l' :: 'l' :: rest) = some (.null, rest)
      simp [parseJsonVal, skipWs, wsC]
  | bool b =>
      cases b with
      | true =>
          show parseJsonVal (fuel + 1) ('t' :: 'r' :: 'u' :: 'e' :: rest) =
            some (.bool true, rest)
          simp [parseJsonVal, skipWs, wsC]
      | false =>
          show parseJsonVal (fuel + 1) ('f' :: 'a' :: 'l' :: 's' :: 'e' :: rest) =
            some (.bool false, rest)
          simp [parseJsonVal, skipWs, wsC]
  | str s =>
      show parseJsonVal (fuel + 1) ('"' :: ((escStr s ++ ['"']) ++ rest)) =
        some (.str s, rest)
      rw [List.append_assoc]
      show parseJsonVal (fuel + 1) ('"' :: (escStr s ++ '"' :: rest)) = some (.str s, rest)
      simp [parseJsonVal, skipWs, wsC, escStr, parseStrBody_escList, stringMk_data]
  | num i =>
      obtain ⟨c, t, heq, hc⟩ := intToStr_head i
      obtain ⟨hws, h1, h2, h3, h4, h5, h6⟩ := numHead_facts hc
      show parseJsonVal (fuel + 1) ((intToStr i).data ++ rest) = some (.num i, rest)
      rw [heq, List.cons_append]
      simp only [parseJsonVal, skipWs_cons_false hws]
      simp only [h1, h2, h3, h4, h5, h6, if_false, reduceIte]
      rw [← List.cons_append, ← heq, parseJsonNum_intToStr i rest hg]
      rfl
  | arr xs =>
      cases xs with
      | nil =>
          rw [show printJson (.arr .nil) = ['[', ']'] by rw [printJson, printJsonList]; rfl]
          show parseJsonVal (fuel + 1) ('[' :: ']' :: rest) = some (.arr .nil, rest)
          simp [parseJsonVal, skipWs, wsC]
      | cons v tl =>
          rw [printJson, List.cons_append, List.append_assoc, List.singleton_append]
          obtain ⟨c, t, heq, hws, hne1, hne2⟩ := printJsonList_head v tl
          have hlen : 2 * (printJsonList (.cons v tl) ++ ']' :: rest).length + 2 ≤ fuel := by
            rw [show printJson (.arr (.cons v tl)) =
                '[' :: (printJsonList (.cons v tl) ++ [']']) from by rw [printJson]] at hb
            simp only [List.length_append, List.length_cons] at hb ⊢
            omega
          rw [heq, List.cons_append]
          simp only [parseJsonVal, skipWs_cons_false (by decide : wsC '[' = false)]
          simp only [skipWs_cons_false hws]
          rw [if_neg hne1, ← List.cons_append, ← heq,
            ihi (.cons v tl) (']' :: rest) (by simp) hlen (restGuardI_bracket rest)]
          simp [skipWs, wsC]
  | obj ms =>
      cases ms with
      | onil =>
          rw [show printJson (.obj .onil) = ['\x7b', '\x7d'] by
            rw [printJson, printJsonObj]; rfl]
          show parseJsonVal (fuel + 1) ('\x7b' :: '\x7d' :: rest) = some (.obj .onil, rest)
          simp [parseJsonVal, skipWs, wsC]
      | ocons k v tl =>
          rw [printJson, List.cons_append, List.append_assoc, List.singleton_append]
          have heq : ∃ t, printJsonObj (.ocons k v tl) = '"' :: t := by
            cases tl with
            | onil => exact ⟨_, by rw [printJsonObj]⟩
            | ocons k2 v2 tl2 => exact ⟨_, by rw [printJsonObj]⟩
          obtain ⟨t, heq⟩ := heq
          have hlen : 2 * (printJsonObj (.ocons k v tl) ++ '\x7d' :: rest).length + 2 ≤
              fuel := by
            rw [show printJson (.obj (.ocons k v tl)) =
                '\x7b' :: (printJsonObj (.ocons k v tl) ++ ['\x7d']) from by rw [printJson]]
              at hb
            simp only [List.length_append, List.length_cons] at hb ⊢
            omega
          rw [heq, List.cons_append]
          simp only [parseJsonVal, skipWs_cons_false (by decide : wsC '\x7b' = false)]
          simp only [skipWs_cons_false (by decide : wsC '"' = false)]
          rw [if_neg (by decide : ('"' : Char) ≠ '\x7d'), ← List.cons_append, ← heq,
            ihm (.ocons k v tl) ('\x7d' :: rest) (by simp) hlen (restGuardI_brace rest)]
          simp [skipWs, wsC]

theorem SJi_succ (fuel : Nat) (ihv : SJv fuel) (ihi : SJi fuel) : SJi (fuel + 1) := by
  intro xs rest hne hb hg
  cases xs with
  | nil => exact absurd rfl hne
  | cons v tl =>
      cases tl with
      | nil =>
          rw [printJsonList] at hb ⊢
          have hv : parseJsonVal fuel (printJson v ++ rest) = some (v, rest) := by
            refine ihv v rest ?_ (fun c hc => (hg c hc).1)
            omega
          simp only [parseJsonItems, hv]
          cases rest with
          | nil => simp [skipWs]
          | cons c r =>
              have hgc := hg c rfl
              rw [skipWs_cons_false hgc.2.1]
              simp only [hgc.2.2, if_false, reduceIte]
      | cons w tl2 =>
          rw [printJsonList] at hb ⊢
          rw [List.append_assoc, List.cons_append] at hb ⊢
          have hlv : parseJsonVal fuel
              (printJson v ++ ',' :: (printJsonList (.cons w tl2) ++ rest)) =
              some (v, ',' :: (printJsonList (.cons w tl2) ++ rest)) := by
            refine ihv v _ ?_ (restGuardV_comma _)
            simp only [List.length_append, List.length_cons] at hb ⊢
            omega
          simp only [parseJsonItems, hlv]
          rw [skipWs_cons_false (by decide : wsC ',' = false)]
          have hli : parseJsonItems fuel (printJsonList (.cons w tl2) ++ rest) =
              some (.cons w tl2, rest) := by
            refine ihi (.cons w tl2) rest (by simp) ?_ hg
            simp only [List.length_append, List.length_cons] at hb ⊢
            omega
          simp only [reduceIte, hli]

theorem SJm_succ (fuel : Nat) (ihv : SJv fuel) (ihm : SJm fuel) : SJm (fuel + 1) := by
  intro ms rest hne hb hg
  cases ms with
  | onil => exact absurd rfl hne
  | ocons k v tl =>
      cases tl with
      | onil =>
          rw [printJsonObj] at hb ⊢
          rw [List.cons_append, List.append_assoc, List.cons_append, List.cons_append]
            at hb ⊢
          have hv : parseJsonVal fuel (printJson v ++ rest) = some (v, rest) := by
            refine ihv v rest ?_ (fun c hc => (hg c hc).1)
            simp only [List.length_append, List.length_cons] at hb ⊢
            omega
          simp only [parseJsonMembers, skipWs_cons_false (by decide : wsC '"' = false)]
          simp only [reduceIte, escStr, parseStrBody_escList,
            skipWs_cons_false (by decide : wsC ':' = false), hv, stringMk_data]
          cases rest with
          | nil => simp [skipWs]
          | cons c r =>
              have hgc := hg c rfl
              rw [skipWs_cons_false hgc.2.1]
              simp only [hgc.2.2, if_false, reduceIte]
      | ocons k2 v2 tl2 =>
          rw [printJsonObj] at hb ⊢
          rw [List.cons_append, List.append_assoc, List.cons_append, List.cons_append,
            List.append_assoc, List.cons_append] at hb ⊢
          have hv : parseJsonVal fuel
              (printJson v ++ ',' :: (printJsonObj (.ocons k2 v2 tl2) ++ rest)) =
              some (v, ',' :: (printJsonObj (.ocons k2 v2 tl2) ++ rest)) := by
            refine ihv v _ ?_ (restGuardV_comma _)
            simp only [List.length_append, List.length_cons] at hb ⊢
            omega
          simp only [parseJsonMembers, skipWs_cons_false (by decide : wsC '"' = false)]
          simp only [reduceIte, escStr, parseStrBody_escList,
            skipWs_cons_false (by decide : wsC ':' = false), hv, stringMk_data]
          rw [skipWs_cons_false (by decide : wsC ',' = false)]
          have hlm : parseJsonMembers fuel (printJsonObj (.ocons k2 v2 tl2) ++ rest) =
              some (.ocons k2 v2 tl2, rest) := by
            refine ihm (.ocons k2 v2 tl2) rest (by simp) ?_ hg
            simp only [List.length_append, List.length_cons] at hb ⊢
            omega
          simp only [reduceIte, hlm]

theorem jsonRound (fuel : Nat) : SJv fuel ∧ SJi fuel ∧ SJm fuel := by
  induction fuel with
  | zero =>
      refine ⟨fun v rest hb _ => absurd hb (by omega),
        fun xs rest _ hb _ => absurd hb (by omega),
        fun ms rest _ hb _ => absurd hb (by omega)⟩
  | succ fuel ih =>
      exact ⟨SJv_succ fuel ih.2.1 ih.2.2, SJi_succ fuel ih.1 ih.2.1,
        SJm_succ fuel ih.1 ih.2.2⟩

theorem parseJsonTop_printJson (v : Json) :
    parseJsonTop (String.mk (printJson v)) = some v := by
  have hv := (jsonRound (2 * (String.mk (printJson v)).length + 1)).1 v []
    (by simp) (fun c hc => by cases hc)
  rw [List.append_nil] at hv
  rw [parseJsonTop]
  show (match parseJsonVal (2 * (String.mk (printJson v)).length + 1) (printJson v) with
    | none => none
    | some (v, rest) => if skipWs rest = [] then some v else none) = some v
  rw [hv]
  simp [skipWs]

/-! Typed parameter values and the per-variant coercions.  The Parameter
classes live in the missing `param_types.py`; the variants and their
coercion/serialization behaviour are modelled from spec section 4.3. -/

/-- Modelled from the spec: the typed value a Parameter holds (section 3,
"Parameter instance: key, value (typed)"). -/
inductive PValue where
  | bool : Bool → PValue
  | int : Int → PValue
  | float : FloatVal → PValue
  | str : String → PValue
  | json : Json → PValue
  | list : List String → PValue
  | label : String → PValue

/-- Modelled from the spec: boolean-token coercion (section 4.3, "boolean
tokens → bool"; section 4.3 `to_file_value`: bool → "true"/"false"). -/
def parseBoolRaw (s : String) : Option Bool :=
  if s = "true" then some true else if s = "false" then some false else none

/-- Modelled from the spec: label-list coercion of a multi-reference
settings parameter (section 4.5, "a label (or list of labels)"): comma
split and per-label strip. -/
def parseLabelList (s : String) : List String :=
  (splitComma s.data).map (fun g => String.mk (trimChars g))

/-- Modelled from the spec: multi-policy-list coercion (section 4.3,
"comma/space-joined list syntax → multi-value" and "deduplicates"): comma
split, per-element strip, deduplication. -/
def parsePolicyList (s : String) : List String :=
  (parseLabelList s).dedup

/-- Join a list value back to its comma-separated text form. -/
def joinListValue (l : List String) : String :=
  String.mk (joinComma (l.map String.data))

theorem splitComma_no_comma (cs : List Char) :
    ∀ g ∈ splitComma cs, ∀ c ∈ g, c ≠ ',' := by
  induction cs with
  | nil =>
      intro g hg
      rw [splitComma, List.mem_singleton] at hg
      subst hg
      intro c hc
      cases hc
  | cons c rest ih =>
      intro g hg
      rw [splitComma] at hg
      by_cases hc : c = ','
      · rw [if_pos hc, List.mem_cons] at hg
        rcases hg with rfl | hg
        · intro d hd; cases hd
        · exact ih g hg
      · rw [if_neg hc] at hg
        rcases h : splitComma rest with _ | ⟨g0, gs⟩
        · exact absurd h (splitComma_ne_nil rest)
        · rw [h, List.mem_cons] at hg
          rcases hg with rfl | hg
          · intro d hd
            rcases List.mem_cons.1 hd with rfl | hd'
            · exact hc
            · exact ih g0 (by rw [h]; simp) d hd'
          · exact ih g (by rw [h]; simp [hg])

theorem mem_trimChars {c : Char} {l : List Char} (h : c ∈ trimChars l) : c ∈ l := by
  rw [trimChars] at h
  have h1 : c ∈ List.dropWhile wsC l :=
    List.Sublist.mem h (List.rdropWhile_prefix wsC (List.dropWhile wsC l)).sublist
  exact List.Sublist.mem h1 (List.dropWhile_sublist wsC)

theorem labelList_elements {x e : String} (he : e ∈ parseLabelList x) :
    (∀ c ∈ e.data, c ≠ ',') ∧ trimChars e.data = e.data := by
  rw [parseLabelList, List.mem_map] at he
  obtain ⟨g, hg, rfl⟩ := he
  refine ⟨?_, trimChars_idempotent g⟩
  intro c hc
  exact splitComma_no_comma x.data g hg c (mem_trimChars hc)

theorem joinListValue_reparse {l : List String} (hne : l ≠ [])
    (h : ∀ e ∈ l, (∀ c ∈ e.data, c ≠ ',') ∧ trimChars e.data = e.data) :
    parseLabelList (joinListValue l) = l := by
  rw [parseLabelList, joinListValue]
  show (splitComma (joinComma (l.map String.data))).map (fun g => String.mk (trimChars g)) = l
  rw [splitComma_joinComma (by simpa using hne) ?hc]
  case hc =>
    intro g hg
    rw [List.mem_map] at hg
    obtain ⟨e, he, rfl⟩ := hg
    exact (h e he).1
  rw [List.map_map]
  have : ∀ e ∈ l, String.mk (trimChars e.data) = e := by
    intro e he
    rw [(h e he).2, stringMk_data]
  calc l.map (fun e => String.mk (trimChars e.data)) = l.map id := by
        exact List.map_congr_left this
    _ = l := List.map_id l

theorem parseLabelList_roundTrip (x : String) :
    parseLabelList (joinListValue (parseLabelList x)) = parseLabelList x := by
  refine joinListValue_reparse ?_ (fun e he => labelList_elements he)
  rw [parseLabelList]
  simpa using splitComma_ne_nil x.data

theorem parsePolicyList_roundTrip (x : String) :
    parsePolicyList (joinListValue (parsePolicyList x)) = parsePolicyList x := by
  have h1 : parseLabelList (joinListValue (parsePolicyList x)) = parsePolicyList x := by
    refine joinListValue_reparse ?_ ?_
    · rw [parsePolicyList]
      intro h0
      rw [List.dedup_eq_nil, parseLabelList] at h0
      exact splitComma_ne_nil x.data (by simpa using h0)
    · intro e he
      rw [parsePolicyList] at he
      exact labelList_elements (List.mem_dedup.1 he)
  rw [parsePolicyList, h1, parsePolicyList,
    List.dedup_eq_self.2 (List.nodup_dedup (parseLabelList x))]

theorem parseFloatCore_inv {cs : List Char} {n : Nat} {fp : List Char}
    (h : parseFloatCore cs = some (n, fp)) :
    fp.all digitC = true ∧ stripTrailingZeros fp = fp := by
  rw [parseFloatCore.eq_def] at h
  rcases hb : breakDot cs with _ | ⟨l, r⟩
  · rw [hb] at h
    rcases hn : parseNatCore cs with _ | m
    · rw [hn] at h; cases h
    · rw [hn] at h
      injection h with h
      injection h with h1 h2
      subst h2
      exact ⟨rfl, rfl⟩
  · rw [hb] at h
    simp only [] at h
    by_cases hcond : l ≠ [] ∧ l.all digitC = true ∧ r.all digitC = true
    · rw [if_pos hcond] at h
      injection h with h
      injection h with h1 h2
      subst h2
      constructor
      · rw [List.all_eq_true]
        intro c hc
        have hcr : c ∈ r :=
          List.Sublist.mem hc (List.rdropWhile_prefix (fun c => c = '0') r).sublist
        exact List.all_eq_true.1 hcond.2.2 c hcr
      · exact List.rdropWhile_idempotent _ _
    · rw [if_neg hcond] at h
      cases h

theorem parseFloatRaw_inv {cs : List Char} {v : FloatVal}
    (h : parseFloatRaw cs = some v) :
    v.frac.all digitC = true ∧ stripTrailingZeros v.frac = v.frac := by
  cases cs with
  | nil => cases h
  | cons c rest =>
      rw [parseFloatRaw] at h
      by_cases h1 : c = '-'
      · rw [if_pos h1] at h
        rcases hc : parseFloatCore rest with _ | ⟨m, fp⟩
        · rw [hc] at h; cases h
        · rw [hc] at h
          injection h with h
          subst h
          exact parseFloatCore_inv hc
      · rw [if_neg h1] at h
        by_cases h2 : c = '+'
        · rw [if_pos h2] at h
          rcases hc : parseFloatCore rest with _ | ⟨m, fp⟩
          · rw [hc] at h; cases h
          · rw [hc] at h
            injection h with h
            subst h
            exact parseFloatCore_inv hc
        · rw [if_neg h2] at h
          rcases hc : parseFloatCore (c :: rest) with _ | ⟨m, fp⟩
          · rw [hc] at h; cases h
          · rw [hc] at h
            injection h with h
            subst h
            exact parseFloatCore_inv hc

/-- Modelled from the spec: the Parameter variants of section 4.3, one tag
per class that `mappings.py` imports from the missing `param_types.py`
(`Param` itself is the raw-string variant, tag `param`). -/
inductive ParamVariant where
  | param
  | boolP
  | intP
  | floatP
  | jsonP
  | maintainInitialSizeP
  | minSizeP
  | desiredSizeP
  | maxSizeP
  | settingsP
  | ebsSettingsP
  | additionalIamPoliciesP
  | sharedDirP
  | availabilityZoneP
  | spotPriceP
  | spotBidPercentageP
deriving DecidableEq

/-- Modelled from the spec: the type coercion `construct_from_source`
applies to a present raw value (section 4.3); `none` models a
MalformedValue coercion failure. -/
def coerceValue : ParamVariant → String → Option PValue
  | .boolP, raw | .maintainInitialSizeP, raw => (parseBoolRaw raw).map .bool
  | .intP, raw | .minSizeP, raw | .desiredSizeP, raw | .maxSizeP, raw
  | .spotBidPercentageP, raw => (parseIntRaw raw.data).map .int
  | .floatP, raw | .spotPriceP, raw => (parseFloatRaw raw.data).map .float
  | .jsonP, raw => (parseJsonTop raw).map .json
  | .additionalIamPoliciesP, raw => some (.list (parsePolicyList raw))
  | .ebsSettingsP, raw => some (.list (parseLabelList raw))
  | .settingsP, raw => some (.label raw)
  | .param, raw | .sharedDirP, raw | .availabilityZoneP, raw => some (.str raw)

/-- Modelled from the spec: `to_file_value`, the inverse coercion
(section 4.3): bool → "true"/"false", JSON value → compact JSON text,
numbers and lists → their canonical decimal and comma-joined forms. -/
def toFileValue : PValue → String
  | .bool b => if b then "true" else "false"
  | .int i => intToStr i
  | .float v => floatToStr v
  | .str s => s
  | .json j => String.mk (printJson j)
  | .list l => joinListValue l
  | .label s => s

/-- C9: for every Parameter variant and every valid source value `x`,
serializing the constructed parameter with `to_file_value` and re-parsing
the resulting text with `construct_from_source` yields the same typed value
as the original construction (a format round-trip, not necessarily a
byte-identical one). -/
theorem toFileValue_coerce_roundTrip :
    ∀ (var : ParamVariant) (x : String) (v : PValue),
      coerceValue var x = some v → coerceValue var (toFileValue v) = some v := by
  intro var x v h
  cases var
  case param =>
      injection h with h
      subst h
      rfl
  case sharedDirP =>
      injection h with h
      subst h
      rfl
  case availabilityZoneP =>
      injection h with h
      subst h
      rfl
  case settingsP =>
      injection h with h
      subst h
      rfl
  case boolP =>
      rcases hb : parseBoolRaw x with _ | b
      · rw [show coerceValue .boolP x = (parseBoolRaw x).map .bool from rfl, hb] at h
        cases h
      · rw [show coerceValue .boolP x = (parseBoolRaw x).map .bool from rfl, hb] at h
        injection h with h
        subst h
        cases b <;> rfl
  case maintainInitialSizeP =>
      rcases hb : parseBoolRaw x with _ | b
      · rw [show coerceValue .maintainInitialSizeP x = (parseBoolRaw x).map .bool from rfl,
          hb] at h
        cases h
      · rw [show coerceValue .maintainInitialSizeP x = (parseBoolRaw x).map .bool from rfl,
          hb] at h
        injection h with h
        subst h
        cases b <;> rfl
  case intP =>
      rcases hi : parseIntRaw x.data with _ | i
      · rw [show coerceValue .intP x = (parseIntRaw x.data).map .int from rfl, hi] at h
        cases h
      · rw [show coerceValue .intP x = (parseIntRaw x.data).map .int from rfl, hi] at h
        injection h with h
        subst h
        show (parseIntRaw (intToStr i).data).map PValue.int = some (.int i)
        rw [parseIntRaw_intToStr]
        rfl
  case minSizeP =>
      rcases hi : parseIntRaw x.data with _ | i
      · rw [show coerceValue .minSizeP x = (parseIntRaw x.data).map .int from rfl, hi] at h
        cases h
      · rw [show coerceValue .minSizeP x = (parseIntRaw x.data).map .int from rfl, hi] at h
        injection h with h
        subst h
        show (parseIntRaw (intToStr i).data).map PValue.int = some (.int i)
        rw [parseIntRaw_intToStr]
        rfl
  case desiredSizeP =>
      rcases hi : parseIntRaw x.data with _ | i
      · rw [show coerceValue .desiredSizeP x = (parseIntRaw x.data).map .int from rfl,
          hi] at h
        cases h
      · rw [show coerceValue .desiredSizeP x = (parseIntRaw x.data).map .int from rfl,
          hi] at h
        injection h with h
        subst h
        show (parseIntRaw (intToStr i).data).map PValue.int = some (.int i)
        rw [parseIntRaw_intToStr]
        rfl
  case maxSizeP =>
      rcases hi : parseIntRaw x.data with _ | i
      · rw [show coerceValue .maxSizeP x = (parseIntRaw x.data).map .int from rfl, hi] at h
        cases h
      · rw [show coerceValue .maxSizeP x = (parseIntRaw x.data).map .int from rfl, hi] at h
        injection h with h
        subst h
        show (parseIntRaw (intToStr i).data).map PValue.int = some (.int i)
        rw [parseIntRaw_intToStr]
        rfl
  case spotBidPercentageP =>
      rcases hi : parseIntRaw x.data with _ | i
      · rw [show coerceValue .spotBidPercentageP x = (parseIntRaw x.data).map .int from rfl,
          hi] at h
        cases h
      · rw [show coerceValue .spotBidPercentageP x = (parseIntRaw x.data).map .int from rfl,
          hi] at h
        injection h with h
        subst h
        show (parseIntRaw (intToStr i).data).map PValue.int = some (.int i)
        rw [parseIntRaw_intToStr]
        rfl
  case floatP =>
      rcases hf : parseFloatRaw x.data with _ | fv
      · rw [show coerceValue .floatP x = (parseFloatRaw x.data).map .float from rfl,
          hf] at h
        cases h
      · rw [show coerceValue .floatP x = (parseFloatRaw x.data).map .float from rfl,
          hf] at h
        injection h with h
        subst h
        obtain ⟨hd, hs⟩ := parseFloatRaw_inv hf
        show (parseFloatRaw (floatToStr fv).data).map PValue.float = some (.float fv)
        rw [parseFloatRaw_floatToStr fv hd hs]
        rfl
  case spotPriceP =>
      rcases hf : parseFloatRaw x.data with _ | fv
      · rw [show coerceValue .spotPriceP x = (parseFloatRaw x.data).map .float from rfl,
          hf] at h
        cases h
      · rw [show coerceValue .spotPriceP x = (parseFloatRaw x.data).map .float from rfl,
          hf] at h
        injection h with h
        subst h
        obtain ⟨hd, hs⟩ := parseFloatRaw_inv hf
        show (parseFloatRaw (floatToStr fv).data).map PValue.float = some (.float fv)
        rw [parseFloatRaw_floatToStr fv hd hs]
        rfl
  case jsonP =>
      rcases hj : parseJsonTop x with _ | j
      · rw [show coerceValue .jsonP x = (parseJsonTop x).map .json from rfl, hj] at h
        cases h
      · rw [show coerceValue .jsonP x = (parseJsonTop x).map .json from rfl, hj] at h
        injection h with h
        subst h
        show (parseJsonTop (String.mk (printJson j))).map PValue.json = some (.json j)
        rw [parseJsonTop_printJson]
        rfl
  case additionalIamPoliciesP =>
      injection h with h
      subst h
      show some (PValue.list (parsePolicyList (joinListValue (parsePolicyList x)))) =
        some (.list (parsePolicyList x))
      rw [parsePolicyList_roundTrip]
  case ebsSettingsP =>
      injection h with h
      subst h
      show some (PValue.list (parseLabelList (joinListValue (parseLabelList x)))) =
        some (.list (parseLabelList x))
      rw [parseLabelList_roundTrip]

/-- Witness for C9: the plain string variant at a concrete source value. -/
theorem toFileValue_coerce_roundTrip_witness :
    coerceValue .param "abc" = some (.str "abc") ∧
      coerceValue .param (toFileValue (.str "abc")) = some (.str "abc") :=
  ⟨rfl, toFileValue_coerce_roundTrip .param "abc" (.str "abc") rfl⟩

/-! The allowed-values constraint and the schema structures of
`mappings.py`. -/

/-- An `allowed_values` entry of `mappings.py`: a regex pattern or an
enumerated list of typed literals. -/
inductive AllowedSpec where
  | pattern : Regex → AllowedSpec
  | enum : List PValue → AllowedSpec

/-- Modelled from the spec: the string form of a typed value used by the
regex branch of the matcher (section 4.1, "raw value is the string form of
the candidate"; Python `str`). -/
def toRawString : PValue → String
  | .bool b => if b then "True" else "False"
  | .int i => intToStr i
  | .float v => floatToStr v
  | .str s => s
  | .json j => String.mk (printJson j)
  | .list l => joinListValue l
  | .label s => s

/-- Modelled from the spec: the typed comparison of the enumerated branch
of the matcher (section 4.1, "membership test, using the parameter's typed
comparison").  The schema's enumerations hold only scalar literals, so the
structured values compare by their scalar components only. -/
def pvalEq : PValue → PValue → Bool
  | .bool a, .bool b => a == b
  | .int a, .int b => a == b
  | .float a, .float b => a == b
  | .str a, .str b => a == b
  | .label a, .label b => a == b
  | _, _ => false

/-- Modelled from the spec: the Allowed-Value Matcher (section 4.1): a
regex spec performs a full-string (anchored) match of the string form of
the candidate; an enumerated spec is a typed membership test; an absent
spec always matches.  It never raises; the construction path converts a
`false` result into a DisallowedValue failure (section 7). -/
def matchesAllowed (spec : Option AllowedSpec) (v : PValue) : Bool :=
  match spec with
  | none => true
  | some (.pattern r) => matchFull r (toRawString v)
  | some (.enum vs) => vs.any (fun w => pvalEq w v)

/-- One parameter entry of `mappings.py`: the class (`type`, default
`Param`), the CFN key (`cfn`), the `allowed_values`, the registered
validator names, the `default` and — for settings parameters — the key of
the `referred_section` schema. -/
structure ParamSchema where
  key : String
  variant : ParamVariant := .param
  cfn : Option String := none
  allowed : Option AllowedSpec := none
  validators : List String := []
  defaultVal : Option PValue := none
  referredSection : Option String := none

/-- One section entry of `mappings.py`: the class name (`type`, default
`Section`), the section key, the label, the section-level validator names,
the collapsing CFN key (`cfn`) and the ordered parameter schemas. -/
structure SectionSchema where
  key : String
  sectionType : String := "Section"
  label : Option String := none
  validators : List String := []
  cfn : Option String := none
  params : List ParamSchema

/-! The section maps of `mappings.py`, embedded entry by entry.  Parameter
entries used by individual claims are named definitions; the rest are
inlined in their section's parameter list. -/

/-- The `AWS` section of `mappings.py` (lines 96-106). -/
def AWS : SectionSchema where
  key := "aws"
  params := [
    { key := "aws_access_key_id" },
    { key := "aws_secret_access_key" },
    { key := "aws_region_name", defaultVal := some (.str "us-east-1") }
  ]

/-- The `GLOBAL` section of `mappings.py` (lines 108-125). -/
def GLOBAL : SectionSchema where
  key := "global"
  params := [
    { key := "cluster_template", defaultVal := some (.str "default") },
    { key := "update_check", variant := .boolP, defaultVal := some (.bool true) },
    { key := "sanity_check", variant := .boolP, defaultVal := some (.bool true) }
  ]

/-- The `ALIASES` section of `mappings.py` (lines 127-135). -/
def ALIASES : SectionSchema where
  key := "aliases"
  params := [
    { key := "ssh", defaultVal := some (.str "ssh \x7bCFN_USER\x7d@\x7bMASTER_IP\x7d \x7bARGS\x7d") }
  ]

/-- The `SCALING` section of `mappings.py` (lines 137-148). -/
def SCALING : SectionSchema where
  key := "scaling"
  label := some "default"
  params := [
    { key := "scaledown_idletime", variant := .intP, defaultVal := some (.int 10),
      cfn := some "ScaleDownIdleTime" }
  ]

/-- The `vpc_id` entry of the VPC section (`mappings.py` lines 155-159). -/
def vpcIdP : ParamSchema where
  key := "vpc_id"
  cfn := some "VPCId"
  allowed := some (.pattern vpcIdRegex)
  validators := ["ec2_vpc_id_validator"]

/-- The `ssh_from` entry of the VPC section (`mappings.py` lines 165-169):
a CIDR-constrained parameter with no registered validators. -/
def sshFromP : ParamSchema where
  key := "ssh_from"
  defaultVal := some (.str "0.0.0.0/0")
  allowed := some (.pattern cidrRegex)
  cfn := some "AccessFrom"

/-- The `VPC` section of `mappings.py` (lines 150-200). -/
def VPC : SectionSchema where
  key := "vpc"
  label := some "default"
  params := [
    vpcIdP,
    { key := "master_subnet_id", cfn := some "MasterSubnetId",
      allowed := some (.pattern subnetIdRegex),
      validators := ["ec2_subnet_id_validator"] },
    sshFromP,
    { key := "additional_sg", cfn := some "AdditionalSG",
      allowed := some (.pattern securityGroupIdRegex),
      validators := ["ec2_security_group_validator"] },
    { key := "compute_subnet_id", cfn := some "ComputeSubnetId",
      allowed := some (.pattern subnetIdRegex),
      validators := ["ec2_subnet_id_validator"] },
    { key := "compute_subnet_cidr", cfn := some "ComputeSubnetCidr",
      allowed := some (.pattern cidrRegex) },
    { key := "use_public_ips", variant := .boolP, defaultVal := some (.bool true),
      cfn := some "UsePublicIps" },
    { key := "vpc_security_group_id", cfn := some "VPCSecurityGroupId",
      allowed := some (.pattern securityGroupIdRegex),
      validators := ["ec2_security_group_validator"] },
    { key := "master_availability_zone", variant := .availabilityZoneP,
      cfn := some "AvailabilityZone" }
  ]

/-- The `EBS` section of `mappings.py` (lines 202-244). -/
def EBS : SectionSchema where
  key := "ebs"
  label := some "default"
  params := [
    { key := "shared_dir", cfn := some "SharedDir" },
    { key := "ebs_snapshot_id", allowed := some (.pattern ebsSnapshotIdRegex),
      cfn := some "EBSSnapshotId", validators := ["ec2_ebs_snapshot_validator"] },
    { key := "volume_type", defaultVal := some (.str "gp2"),
      allowed := some (.enum [.str "standard", .str "io1", .str "gp2", .str "st1",
        .str "sc1"]),
      cfn := some "VolumeType" },
    { key := "volume_size", variant := .intP, defaultVal := some (.int 20),
      cfn := some "VolumeSize" },
    { key := "volume_iops", variant := .intP, defaultVal := some (.int 100),
      cfn := some "VolumeIOPS" },
    { key := "encrypted", variant := .boolP, cfn := some "EBSEncryption",
      defaultVal := some (.bool false) },
    { key := "ebs_kms_key_id", cfn := some "EBSKMSKeyId" },
    { key := "ebs_volume_id", cfn := some "EBSVolumeId",
      allowed := some (.pattern ebsVolumeIdRegex), validators := ["ec2_volume_validator"] }
  ]

/-- The `efs_fs_id` entry of the EFS section (`mappings.py` lines 255-258). -/
def efsFsIdP : ParamSchema where
  key := "efs_fs_id"
  allowed := some (.pattern efsFsIdRegex)
  validators := ["efs_id_validator"]

/-- The `EFS` section of `mappings.py` (lines 246-278): a collapsed section,
all parameters are converted into the single CFN parameter `EFSOptions`, in
the declared order. -/
def EFS : SectionSchema where
  key := "efs"
  sectionType := "EFSSection"
  label := some "default"
  validators := ["efs_validator"]
  cfn := some "EFSOptions"
  params := [
    { key := "shared_dir" },
    efsFsIdP,
    { key := "performance_mode", defaultVal := some (.str "generalPurpose"),
      allowed := some (.enum [.str "generalPurpose", .str "maxIO"]) },
    { key := "efs_kms_key_id" },
    { key := "provisioned_throughput",
      allowed := some (.pattern provisionedThroughputRegex), variant := .floatP },
    { key := "encrypted", variant := .boolP, defaultVal := some (.bool false) },
    { key := "throughput_mode", defaultVal := some (.str "bursting"),
      allowed := some (.enum [.str "provisioned", .str "bursting"]) }
  ]

/-- The `RAID` section of `mappings.py` (lines 280-316): a collapsed
section, all parameters are converted into the single CFN parameter
`RAIDOptions`, in the declared order. -/
def RAID : SectionSchema where
  key := "raid"
  label := some "default"
  cfn := some "RAIDOptions"
  params := [
    { key := "shared_dir" },
    { key := "raid_type", variant := .intP, allowed := some (.enum [.int 0, .int 1]) },
    { key := "num_of_raid_volumes", variant := .intP,
      allowed := some (.pattern numOfRaidVolumesRegex) },
    { key := "volume_type", defaultVal := some (.str "gp2"),
      allowed := some (.enum [.str "standard", .str "io1", .str "gp2", .str "st1",
        .str "sc1"]) },
    { key := "volume_size", variant := .intP, defaultVal := some (.int 20) },
    { key := "volume_iops", variant := .intP, defaultVal := some (.int 100),
      validators := ["raid_volume_iops_validator"] },
    { key := "encrypted", variant := .boolP, defaultVal := some (.bool false) },
    { key := "ebs_kms_key_id" }
  ]

/-- The `fsx_fs_id` entry of the FSX section (`mappings.py` lines 328-331). -/
def fsxFsIdP : ParamSchema where
  key := "fsx_fs_id"
  allowed := some (.pattern fsxFsIdRegex)
  validators := ["fsx_id_validator"]

/-- The `FSX` section of `mappings.py` (lines 319-346): a collapsed section,
all parameters are converted into the single CFN parameter `FSXOptions`, in
the declared order. -/
def FSX : SectionSchema where
  key := "fsx"
  label := some "default"
  validators := ["fsx_validator"]
  cfn := some "FSXOptions"
  params := [
    { key := "shared_dir" },
    fsxFsIdP,
    { key := "storage_capacity", variant := .intP,
      validators := ["fsx_storage_capacity_validator"] },
    { key := "fsx_kms_key_id" },
    { key := "imported_file_chunk_size", variant := .intP,
      validators := ["fsx_imported_file_chunk_size_validator"] },
    { key := "export_path" },
    { key := "import_path" },
    { key := "weekly_maintenance_start_time" }
  ]

/-- The `master_root_volume_size` entry of the CLUSTER section
(`mappings.py` lines 394-399), constrained by
`ALLOWED_VALUES["greater_than_20"]`. -/
def masterRootVolumeSizeP : ParamSchema where
  key := "master_root_volume_size"
  variant := .intP
  defaultVal := some (.int 20)
  allowed := some (.pattern greaterThan20Regex)
  cfn := some "MasterRootVolumeSize"

/-- The `compute_root_volume_size` entry of the CLUSTER section
(`mappings.py` lines 406-411), constrained by
`ALLOWED_VALUES["greater_than_20"]`. -/
def computeRootVolumeSizeP : ParamSchema where
  key := "compute_root_volume_size"
  variant := .intP
  defaultVal := some (.int 20)
  allowed := some (.pattern greaterThan20Regex)
  cfn := some "ComputeRootVolumeSize"

/-- The `initial_queue_size` entry of the CLUSTER section (`mappings.py`
lines 412-416). -/
def initialQueueSizeP : ParamSchema where
  key := "initial_queue_size"
  variant := .desiredSizeP
  defaultVal := some (.int 0)
  cfn := some "DesiredSize"

/-- The `max_queue_size` entry of the CLUSTER section (`mappings.py`
lines 417-421). -/
def maxQueueSizeP : ParamSchema where
  key := "max_queue_size"
  variant := .maxSizeP
  defaultVal := some (.int 10)
  cfn := some "MaxSize"

/-- The `maintain_initial_size` entry of the CLUSTER section (`mappings.py`
lines 422-426): a boolean parameter whose CFN key is `MinSize`. -/
def maintainInitialSizeP : ParamSchema where
  key := "maintain_initial_size"
  variant := .maintainInitialSizeP
  defaultVal := some (.bool false)
  cfn := some "MinSize"

/-- The `min_vcpus` entry of the CLUSTER section (`mappings.py`
lines 427-431): the minimum-size parameter, CFN key `MinSize`. -/
def minVcpusP : ParamSchema where
  key := "min_vcpus"
  variant := .minSizeP
  defaultVal := some (.int 0)
  cfn := some "MinSize"

/-- The `desired_vcpus` entry of the CLUSTER section (`mappings.py`
lines 432-436). -/
def desiredVcpusP : ParamSchema where
  key := "desired_vcpus"
  variant := .desiredSizeP
  defaultVal := some (.int 4)
  cfn := some "DesiredSize"

/-- The `max_vcpus` entry of the CLUSTER section (`mappings.py`
lines 437-441). -/
def maxVcpusP : ParamSchema where
  key := "max_vcpus"
  variant := .maxSizeP
  defaultVal := some (.int 10)
  cfn := some "MaxSize"

/-- The `scaling_settings` entry of the CLUSTER section (`mappings.py`
lines 536-540): a settings reference with default label `default`, so the
scaling section structure is always created. -/
def scalingSettingsP : ParamSchema where
  key := "scaling_settings"
  variant := .settingsP
  defaultVal := some (.label "default")
  referredSection := some "scaling"

/-- The `vpc_settings` entry of the CLUSTER section (`mappings.py`
lines 541-545): a settings reference with default label `default`, so the
vpc section structure is always created. -/
def vpcSettingsP : ParamSchema where
  key := "vpc_settings"
  variant := .settingsP
  defaultVal := some (.label "default")
  referredSection := some "vpc"

/-- The `ebs_settings` entry of the CLUSTER section (`mappings.py`
lines 546-549): a multi-label settings reference with no default. -/
def ebsSettingsP : ParamSchema where
  key := "ebs_settings"
  variant := .ebsSettingsP
  referredSection := some "ebs"

/-- The `efs_settings` entry of the CLUSTER section (`mappings.py`
lines 550-553): a settings reference with no default. -/
def efsSettingsP : ParamSchema where
  key := "efs_settings"
  variant := .settingsP
  referredSection := some "efs"

/-- The `raid_settings` entry of the CLUSTER section (`mappings.py`
lines 554-557): a settings reference with no default. -/
def raidSettingsP : ParamSchema where
  key := "raid_settings"
  variant := .settingsP
  referredSection := some "raid"

/-- The `fsx_settings` entry of the CLUSTER section (`mappings.py`
lines 558-561): a settings reference with no default. -/
def fsxSettingsP : ParamSchema where
  key := "fsx_settings"
  variant := .settingsP
  referredSection := some "fsx"

/-- The `CLUSTER` section of `mappings.py` (lines 348-563). -/
def CLUSTER : SectionSchema where
  key := "cluster"
  sectionType := "ClusterSection"
  label := some "default"
  validators := ["cluster_validator"]
  params := [
    { key := "key_name", cfn := some "KeyName", validators := ["ec2_key_pair_validator"] },
    { key := "template_url", validators := ["url_validator"] },
    { key := "base_os", defaultVal := some (.str "alinux"), cfn := some "BaseOS",
      allowed := some (.enum [.str "alinux", .str "ubuntu1604", .str "ubuntu1804",
        .str "centos6", .str "centos7"]) },
    { key := "scheduler", defaultVal := some (.str "sge"), cfn := some "Scheduler",
      allowed := some (.enum [.str "awsbatch", .str "sge", .str "slurm", .str "torque"]),
      validators := ["scheduler_validator"] },
    { key := "shared_dir", variant := .sharedDirP, cfn := some "SharedDir",
      defaultVal := some (.str "/shared") },
    { key := "placement_group", cfn := some "PlacementGroup",
      validators := ["ec2_placement_group_validator"] },
    { key := "placement", defaultVal := some (.str "compute"), cfn := some "Placement",
      allowed := some (.enum [.str "cluster", .str "compute"]) },
    { key := "master_instance_type", defaultVal := some (.str "t2.micro"),
      cfn := some "MasterInstanceType" },
    masterRootVolumeSizeP,
    { key := "compute_instance_type", defaultVal := some (.str "t2.micro"),
      cfn := some "ComputeInstanceType", validators := ["compute_instance_type_validator"] },
    computeRootVolumeSizeP,
    initialQueueSizeP,
    maxQueueSizeP,
    maintainInitialSizeP,
    minVcpusP,
    desiredVcpusP,
    maxVcpusP,
    { key := "cluster_type", defaultVal := some (.str "ondemand"),
      allowed := some (.enum [.str "ondemand", .str "spot"]),
      cfn := some "ClusterType" },
    { key := "spot_price", variant := .spotPriceP,
      defaultVal := some (.float ⟨false, 0, []⟩), cfn := some "SpotPrice" },
    { key := "spot_bid_percentage", variant := .spotBidPercentageP,
      defaultVal := some (.int 0), cfn := some "SpotPrice",
      allowed := some (.pattern spotBidPercentageRegex) },
    { key := "proxy_server", cfn := some "ProxyServer" },
    { key := "ec2_iam_role", cfn := some "EC2IAMRoleName",
      validators := ["ec2_iam_role_validator"] },
    { key := "additional_iam_policies", variant := .additionalIamPoliciesP,
      cfn := some "EC2IAMPolicies", validators := ["ec2_iam_policies_validator"] },
    { key := "s3_read_resource", cfn := some "S3ReadResource" },
    { key := "s3_read_write_resource", cfn := some "S3ReadWriteResource" },
    { key := "enable_efa", allowed := some (.enum [.str "compute"]), cfn := some "EFA",
      validators := ["efa_validator"] },
    { key := "ephemeral_dir", defaultVal := some (.str "/scratch"),
      cfn := some "EphemeralDir" },
    { key := "encrypted_ephemeral", defaultVal := some (.bool false), variant := .boolP,
      cfn := some "EncryptedEphemeral" },
    { key := "custom_ami", cfn := some "CustomAMI",
      allowed := some (.pattern customAmiRegex), validators := ["ec2_ami_validator"] },
    { key := "pre_install", cfn := some "PreInstallScript", validators := ["url_validator"] },
    { key := "pre_install_args", cfn := some "PreInstallArgs" },
    { key := "post_install", cfn := some "PostInstallScript",
      validators := ["url_validator"] },
    { key := "post_install_args", cfn := some "PostInstallArgs" },
    { key := "extra_json", variant := .jsonP, cfn := some "ExtraJson" },
    { key := "additional_cfn_template", cfn := some "AdditionalCfnTemplate",
      validators := ["url_validator"] },
    { key := "tags", variant := .jsonP },
    { key := "custom_chef_cookbook", cfn := some "CustomChefCookbook",
      validators := ["url_validator"] },
    { key := "custom_awsbatch_template_url", cfn := some "CustomAWSBatchTemplateURL",
      validators := ["url_validator"] },
    scalingSettingsP,
    vpcSettingsP,
    ebsSettingsP,
    efsSettingsP,
    raidSettingsP,
    fsxSettingsP
  ]

/-! The Validator Pipeline and the parameter construction path, modelled
from spec sections 4.2, 4.3 and 7 (their implementation lives in the
missing `param_types.py` / `pcluster_config.py`). -/

/-- Outcome of one validator run (spec sections 4.2 and 6): ok, a warning
with a message, or an error with a message. -/
inductive VOutcome where
  | ok : VOutcome
  | warning : String → VOutcome
  | error : String → VOutcome
deriving DecidableEq

/-- The external validator capability (spec section 6): a registered
validator name applied to a typed value yields an outcome.  Validators are
opaque to this core and enter every statement as an arbitrary environment. -/
def ValidatorEnv : Type := String → PValue → VOutcome

/-- Modelled from the spec: the Validator Pipeline (section 4.2): run the
registered validators in order, aborting at the first error (validators
after the first failure do not run); warnings are collected and do not
abort. -/
def runValidators (env : ValidatorEnv) (names : List String) (v : PValue) :
    Except String (List String) :=
  match names with
  | [] => .ok []
  | n :: rest =>
      match env n v with
      | .error msg => .error msg
      | .warning msg => (runValidators env rest v).map (fun ws => msg :: ws)
      | .ok => runValidators env rest v

/-- Modelled from the spec and the repository's own tests: `validate` of a
parameter runs its registered Validator Pipeline.  The Allowed-Value
Matcher is not re-run here: `mappings.py` documents `allowed_values` as
"evaluated at parsing time", and the table of
`test_pcluster_config_validators.py` expects `validate` to succeed for the
`ssh_from` and `compute_subnet_cidr` parameters on the value
`"wrong_value"`, which violates their CIDR `allowed_values` pattern — those
parameters register no validators, while every parameter the table expects
to fail does register one. -/
def validateParam (env : ValidatorEnv) (p : ParamSchema) (v : PValue) :
    Except String (List String) :=
  runValidators env p.validators v

/-- A construction failure (spec section 7). -/
inductive BuildError where
  | malformedValue : String → String → BuildError
  | disallowedValue : String → String → BuildError
  | validatorRejected : String → BuildError
  | unresolvedReference : String → BuildError
deriving DecidableEq

/-- Modelled from the spec: the human-readable message of a build error
(section 7, "a human-readable message naming the offending
section/parameter/key"); the repository's tests match the DisallowedValue
message against the pattern `.* has an invalid value .*`. -/
def errorMessage : BuildError → String
  | .malformedValue k raw =>
      "The configuration parameter " ++ k ++ " has an invalid format " ++ raw
  | .disallowedValue k raw =>
      "The configuration parameter " ++ k ++ " has an invalid value " ++ raw
  | .validatorRejected msg => msg
  | .unresolvedReference lbl =>
      "The section referred by the label " ++ lbl ++ " does not exist"

/-- Modelled from the spec: `construct_from_source` for one parameter
(section 4.3): read the raw value (absent ⇒ `default` ⇒ unset), apply the
variant's type coercion and check the allowed values; a failed coercion is
a MalformedValue error, a failed allowed-values check a DisallowedValue
error (sections 4.1 and 7). -/
def constructParam (p : ParamSchema) (raw : Option String) :
    Except BuildError (Option PValue) :=
  match raw with
  | none => .ok p.defaultVal
  | some text =>
      match coerceValue p.variant text with
      | none => .error (.malformedValue p.key text)
      | some v =>
          if matchesAllowed p.allowed v then .ok (some v)
          else .error (.disallowedValue p.key text)

/-- The test pattern `.* has an invalid value .*` of
`test_pcluster_config_validators.py`, as a regex over the whole message
(`.*` is the any-character star). -/
def invalidValueMsgRegex : Regex :=
  .seq (.star (.cls (fun _ => true)))
    (.seq (strR " has an invalid value ") (.star (.cls (fun _ => true))))

/-- Look up one parameter schema of a section by key. -/
def findParam (s : SectionSchema) (k : String) : Option ParamSchema :=
  s.params.find? (fun p => p.key == k)

/-- The rows of `test_param_validator` in
`test_pcluster_config_validators.py` (lines 18-29): the VPC parameter key
and whether `validate` on the value "wrong_value" is expected to raise a
SystemExit matching `.* has an invalid value .*` (`true`) or to pass
(`false`). -/
def testParamValidatorRows : List (String × Bool) :=
  [("vpc_id", true), ("master_subnet_id", true), ("ssh_from", false),
    ("additional_sg", true), ("compute_subnet_id", true),
    ("compute_subnet_cidr", false), ("use_public_ips", false),
    ("vpc_security_group_id", true)]

/-- A validator environment in which every external validator rejects its
value (as the EC2 inventory validators do for "wrong_value"). -/
def rejectingEnv : ValidatorEnv :=
  fun n _ => .error ("The configuration parameter " ++ n ++ " has an invalid value")

/-- The modelled `validate` reproduces every row of the repository's own
`test_param_validator` table: under an environment in which the external
validators reject, exactly the parameters that register validators fail
`validate`, and the rows that fail their `allowed_values` pattern but
register no validators pass. -/
theorem validate_matches_test_table :
    ∀ row ∈ testParamValidatorRows,
      ((findParam VPC row.1).map
        (fun p => (validateParam rejectingEnv p (.str "wrong_value")).isOk)) =
        some (!row.2) := by
  decide

/-- C1 counterexample: the vpc section's ssh_from parameter with value
"wrong_value" fails its CIDR `allowed_values` constraint, yet `validate`
succeeds — even under an adversarial environment in which every external
validator rejects — because `validate` runs only the registered Validator
Pipeline and ssh_from registers no validators.  The repository's own test
table asserts exactly this pass (row `(VPC, "ssh_from", "wrong_value",
None)`), refuting the claim that `validate` runs the Allowed-Value Matcher
and fails here. -/
theorem validate_ssh_from_counterexample :
    validateParam (fun _ _ => .error "external validator failure") sshFromP
        (.str "wrong_value") = .ok [] ∧
      matchesAllowed sshFromP.allowed (.str "wrong_value") = false :=
  ⟨rfl, by decide⟩

/-- C1 (amended): `validate(context)` runs only the Validator Pipeline; the
Allowed-Value Matcher is applied at parsing/construction time instead.  In
particular the vpc section's ssh_from parameter registers no validators, so
it passes `validate` under every validator environment and every value —
including "wrong_value", which fails its CIDR `allowed_values` pattern and
is rejected as DisallowedValue at construction, not by `validate`. -/
theorem validate_runs_pipeline_only :
    (∀ (env : ValidatorEnv) (p : ParamSchema) (v : PValue),
        validateParam env p v = runValidators env p.validators v) ∧
      sshFromP.validators = [] ∧
      (∀ (env : ValidatorEnv) (v : PValue), validateParam env sshFromP v = .ok []) ∧
      matchesAllowed sshFromP.allowed (.str "wrong_value") = false ∧
      constructParam sshFromP (some "wrong_value") =
        .error (.disallowedValue "ssh_from" "wrong_value") :=
  ⟨fun _ _ _ => rfl, rfl, fun _ _ => rfl, by decide, rfl⟩

/-- C2: the vpc section's vpc_id parameter fails construction at value
"wrong_value" with a DisallowedValue error whose message matches
`.* has an invalid value .*`, while every value matching the pattern
`^vpc-[0-9a-z]{8}$|^vpc-[0-9a-z]{17}$` that also passes the registered
ec2_vpc_id_validator constructs and validates successfully. -/
theorem vpcId_allowed_enforcement :
    constructParam vpcIdP (some "wrong_value") =
        .error (.disallowedValue "vpc_id" "wrong_value") ∧
      matchFull invalidValueMsgRegex
        (errorMessage (.disallowedValue "vpc_id" "wrong_value")) = true ∧
      (∀ (v : String) (env : ValidatorEnv),
        matchFull vpcIdRegex v = true →
        env "ec2_vpc_id_validator" (.str v) = .ok →
        constructParam vpcIdP (some v) = .ok (some (.str v)) ∧
          validateParam env vpcIdP (.str v) = .ok []) := by
  refine ⟨rfl, by decide, ?_⟩
  intro v env hm henv
  constructor
  · show (if matchesAllowed vpcIdP.allowed (.str v) = true then
        (Except.ok (some (PValue.str v)) : Except BuildError (Option PValue))
      else .error (.disallowedValue vpcIdP.key v)) = .ok (some (.str v))
    rw [if_pos (show matchesAllowed vpcIdP.allowed (.str v) = true from hm)]
  · show runValidators env ["ec2_vpc_id_validator"] (.str v) = .ok []
    simp only [runValidators, henv]

/-- Witness for C2: the patterned value vpc-12345678 with a validator
environment that accepts it. -/
theorem vpcId_allowed_enforcement_witness :
    matchFull vpcIdRegex "vpc-12345678" = true ∧
      constructParam vpcIdP (some "vpc-12345678") = .ok (some (.str "vpc-12345678")) ∧
      validateParam (fun _ _ => .ok) vpcIdP (.str "vpc-12345678") = .ok [] := by
  refine ⟨by decide, ?_⟩
  have h := vpcId_allowed_enforcement.2.2 "vpc-12345678" (fun _ _ => .ok) (by decide) rfl
  exact h

/-- C7: under the full-string (anchored) matching of the Allowed-Value
Matcher, every string accepted for the efs section's efs_fs_id parameter
(pattern `^fs-[0-9a-z]{8}$|^fs-[0-9a-z]{17}|NONE$`) is exactly `fs-`
followed by 8 or 17 characters of `[0-9a-z]` or exactly the literal
`NONE`, and every string accepted for the fsx section's fsx_fs_id
parameter (pattern `^fs-[0-9a-z]{17}|NONE$`) is exactly `fs-` followed by
17 such characters or exactly `NONE` — no surrounding characters. -/
theorem fsId_patterns_anchored :
    (∀ s : String,
      (matchFull efsFsIdRegex s = true →
        (∃ t, s.data = 'f' :: 's' :: '-' :: t ∧ (t.length = 8 ∨ t.length = 17) ∧
          ∀ c ∈ t, lowAlnumC c = true) ∨ s = "NONE") ∧
      (matchFull fsxFsIdRegex s = true →
        (∃ t, s.data = 'f' :: 's' :: '-' :: t ∧ t.length = 17 ∧
          ∀ c ∈ t, lowAlnumC c = true) ∨ s = "NONE")) ∧
      efsFsIdP.allowed = some (.pattern efsFsIdRegex) ∧
      fsxFsIdP.allowed = some (.pattern fsxFsIdRegex) := by
  refine ⟨fun s => ⟨?_, ?_⟩, rfl, rfl⟩
  · intro h
    have hm : Mr efsFsIdRegex s.data := h
    unfold efsFsIdRegex at hm
    rcases Mr_alt.1 hm with h8 | hm2
    · rcases Mr_seq.1 h8 with ⟨u, v, huv, hu, hv⟩
      rw [Mr_strR] at hu
      rcases Mr_repR_cls.1 hv with ⟨hlen, hall⟩
      exact Or.inl ⟨v, by rw [huv, hu]; rfl, Or.inl hlen, hall⟩
    · rcases Mr_alt.1 hm2 with h17 | hnone
      · rcases Mr_seq.1 h17 with ⟨u, v, huv, hu, hv⟩
        rw [Mr_strR] at hu
        rcases Mr_repR_cls.1 hv with ⟨hlen, hall⟩
        exact Or.inl ⟨v, by rw [huv, hu]; rfl, Or.inr hlen, hall⟩
      · rw [Mr_strR] at hnone
        right
        have := congrArg String.mk hnone
        rwa [stringMk_data, stringMk_data] at this
  · intro h
    have hm : Mr fsxFsIdRegex s.data := h
    unfold fsxFsIdRegex at hm
    rcases Mr_alt.1 hm with h17 | hnone
    · rcases Mr_seq.1 h17 with ⟨u, v, huv, hu, hv⟩
      rw [Mr_strR] at hu
      rcases Mr_repR_cls.1 hv with ⟨hlen, hall⟩
      exact Or.inl ⟨v, by rw [huv, hu]; rfl, hlen, hall⟩
    · rw [Mr_strR] at hnone
      right
      have := congrArg String.mk hnone
      rwa [stringMk_data, stringMk_data] at this

/-- Witness for C7: a concrete accepted efs identifier and the literal NONE
for fsx, with the characterizations instantiated there. -/
theorem fsId_patterns_anchored_witness :
    matchFull efsFsIdRegex "fs-0a1b2c3d" = true ∧
      ((∃ t, ("fs-0a1b2c3d" : String).data = 'f' :: 's' :: '-' :: t ∧
        (t.length = 8 ∨ t.length = 17) ∧ ∀ c ∈ t, lowAlnumC c = true) ∨
        ("fs-0a1b2c3d" : String) = "NONE") ∧
      matchFull fsxFsIdRegex "NONE" = true ∧
      ((∃ t, ("NONE" : String).data = 'f' :: 's' :: '-' :: t ∧ t.length = 17 ∧
        ∀ c ∈ t, lowAlnumC c = true) ∨ ("NONE" : String) = "NONE") :=
  ⟨by decide, (fsId_patterns_anchored.1 "fs-0a1b2c3d").1 (by decide),
    by decide, (fsId_patterns_anchored.1 "NONE").2 (by decide)⟩

/-- C10: the `greater_than_20` pattern `^([0-9]+[0-9]{2}|[2-9][0-9])$`,
attached to master_root_volume_size and compute_root_volume_size, accepts
the string "20" itself and the leading-zero string "019" whose integer
value 19 is below 20; it therefore does not restrict accepted strings to
integers strictly greater than 20. -/
theorem greaterThan20_not_strict :
    matchFull greaterThan20Regex "20" = true ∧
      matchFull greaterThan20Regex "019" = true ∧
      parseIntRaw "019".data = some 19 ∧
      parseIntRaw "20".data = some 20 ∧
      ¬((19 : Int) > 20) ∧ ¬((20 : Int) > 20) ∧
      masterRootVolumeSizeP.allowed = some (.pattern greaterThan20Regex) ∧
      computeRootVolumeSizeP.allowed = some (.pattern greaterThan20Regex) :=
  ⟨by decide, by decide, by decide, by decide, by decide, by decide, rfl, rfl⟩

/-- Modelled from the spec: construction of the min/desired/max size
parameter family (MinSizeParam, DesiredSizeParam, MaxSizeParam) enforces
the ordering invariant min ≤ desired ≤ max, rejecting construction with a
validation error if violated (section 4.3, `to_backend_value`; section 8,
"Range invariant"). -/
def buildSizeFamily (mn des mx : Int) : Except String (Int × Int × Int) :=
  if mn ≤ des ∧ des ≤ mx then .ok (mn, des, mx)
  else .error "size ordering invariant violated: min <= desired <= max is required"

/-- C3: constructing the size family with min=5, desired=2, max=10 fails
with a validation error, and with min=2, desired=5, max=10 succeeds;
in general construction succeeds exactly when min ≤ desired ≤ max.  The
CLUSTER schema attaches the MinSizeParam/DesiredSizeParam/MaxSizeParam
variants to min_vcpus, desired_vcpus/initial_queue_size and
max_vcpus/max_queue_size. -/
theorem sizeFamily_ordering :
    (buildSizeFamily 5 2 10).isOk = false ∧
      buildSizeFamily 2 5 10 = .ok (2, 5, 10) ∧
      (∀ mn des mx : Int,
        (buildSizeFamily mn des mx).isOk = true ↔ (mn ≤ des ∧ des ≤ mx)) ∧
      minVcpusP.variant = .minSizeP ∧
      desiredVcpusP.variant = .desiredSizeP ∧
      maxVcpusP.variant = .maxSizeP ∧
      initialQueueSizeP.variant = .desiredSizeP ∧
      maxQueueSizeP.variant = .maxSizeP := by
  refine ⟨by decide, rfl, ?_, rfl, rfl, rfl, rfl, rfl⟩
  intro mn des mx
  rw [buildSizeFamily]
  by_cases h : mn ≤ des ∧ des ≤ mx
  · rw [if_pos h]
    simp [Except.isOk, Except.toBool, h]
  · rw [if_neg h]
    simpa [Except.isOk, Except.toBool] using h

/-- Witness for C3: the ordering characterization instantiated at the
concrete succeeding triple 2, 5, 10. -/
theorem sizeFamily_ordering_witness :
    (buildSizeFamily 2 5 10).isOk = true ∧ ((2 : Int) ≤ 5 ∧ (5 : Int) ≤ 10) :=
  ⟨(sizeFamily_ordering.2.2.1 2 5 10).2 ⟨by decide, by decide⟩, by decide, by decide⟩

/-- Modelled from the spec: the value backend serialization writes to the
MinSize backend slot — when the maintain-initial-size boolean is true the
slot receives the initial-queue-size value, otherwise the minimum-size
value (section 4.3, `to_backend_value`; section 8, "Mutually-exclusive
backend slot"). -/
def minSizeSlotValue (maintainInitialSize : Bool) (initialQueueSize minVcpus : Int) :
    Int :=
  if maintainInitialSize then initialQueueSize else minVcpus

/-- C4: with maintain_initial_size true the MinSize backend key receives
the initial_queue_size value, with false the minimum-size value; the
schema maps both maintain_initial_size and min_vcpus onto the single
backend key MinSize, and the slot always carries exactly one of the two
values. -/
theorem minSize_slot_redirection :
    (∀ iqs mv : Int, minSizeSlotValue true iqs mv = iqs) ∧
      (∀ iqs mv : Int, minSizeSlotValue false iqs mv = mv) ∧
      maintainInitialSizeP.cfn = some "MinSize" ∧
      minVcpusP.cfn = some "MinSize" ∧
      maintainInitialSizeP.variant = .maintainInitialSizeP ∧
      initialQueueSizeP.cfn = some "DesiredSize" ∧
      (∀ (m : Bool) (iqs mv : Int),
        minSizeSlotValue m iqs mv = iqs ∨ minSizeSlotValue m iqs mv = mv) := by
  refine ⟨fun _ _ => rfl, fun _ _ => rfl, rfl, rfl, rfl, rfl, ?_⟩
  intro m iqs mv
  cases m
  · exact Or.inr rfl
  · exact Or.inl rfl

/-- Modelled from the spec: resolution of a Settings Reference parameter
(sections 4.5 and 8): an explicit label must name a section instance
present in the source, otherwise construction fails with
UnresolvedReference; an absent value falls back to the schema default
label, which forces creation of the referred section, and with no default
no section is created. -/
def resolveSettingsRef (fileValue defaultValue : Option String)
    (sourceLabels : List String) : Except BuildError (Option String) :=
  match fileValue with
  | some lbl =>
      if sourceLabels.contains lbl then .ok (some lbl)
      else .error (.unresolvedReference lbl)
  | none =>
      match defaultValue with
      | some dlbl => .ok (some dlbl)
      | none => .ok none

/-- C6: a Settings Reference set to the label "custom" with no matching
section in the source fails with UnresolvedReference; an absent value with
no schema default creates no referenced section and no error; and the
cluster section's scaling_settings and vpc_settings carry the non-absent
default "default", which resolves to the default label (forcing creation
of the referred section) even when the file omits the section, while the
ebs/efs/raid/fsx settings references carry no default. -/
theorem settingsRef_resolution :
    (∀ (d : Option String) (labels : List String), labels.contains "custom" = false →
        resolveSettingsRef (some "custom") d labels =
          .error (.unresolvedReference "custom")) ∧
      (∀ labels, resolveSettingsRef none none labels = .ok none) ∧
      scalingSettingsP.defaultVal = some (.label "default") ∧
      vpcSettingsP.defaultVal = some (.label "default") ∧
      ebsSettingsP.defaultVal = none ∧
      efsSettingsP.defaultVal = none ∧
      raidSettingsP.defaultVal = none ∧
      fsxSettingsP.defaultVal = none ∧
      (∀ labels, resolveSettingsRef none (some "default") labels =
        .ok (some "default")) := by
  refine ⟨?_, fun _ => rfl, rfl, rfl, rfl, rfl, rfl, rfl, fun _ => rfl⟩
  intro d labels h
  show (if labels.contains "custom" = true then
      (Except.ok (some "custom") : Except BuildError (Option String))
    else .error (.unresolvedReference "custom")) =
    .error (.unresolvedReference "custom")
  rw [h]
  simp

/-- Witness for C6: the unresolved label "custom" against an empty source
(the file has no `[scaling custom]` section). -/
theorem settingsRef_resolution_witness :
    ([] : List String).contains "custom" = false ∧
      resolveSettingsRef (some "custom") (some "default") [] =
        .error (.unresolvedReference "custom") :=
  ⟨by decide, settingsRef_resolution.1 (some "default") [] (by decide)⟩

/-- Whether a validator outcome is an error. -/
def isErrorOutcome : VOutcome → Bool
  | .error _ => true
  | _ => false

/-- The result of a Configuration Root build as seen by the enclosing
process (spec section 6, "Process exit contract"). -/
inductive BuildOutcome where
  | ready : List String → BuildOutcome
  | exited : Nat → String → BuildOutcome
deriving DecidableEq

/-- Modelled from the spec: root-level handling of the ordered validation
outcomes (sections 4.6, 6 and 7): the first error terminates the enclosing
process with the non-zero SystemExit status 1 carrying the failing
predicate's message; warnings are collected and do not terminate. -/
def rootHandle (outcomes : List VOutcome) : BuildOutcome :=
  match outcomes with
  | [] => .ready []
  | .ok :: rest => rootHandle rest
  | .warning m :: rest =>
      match rootHandle rest with
      | .ready ws => .ready (m :: ws)
      | .exited c msg => .exited c msg
  | .error m :: _ => .exited 1 m

/-- C8: a validation or construction error at the Configuration Root level
terminates the enclosing process with the non-zero exit status 1 and the
failing predicate's own message — for any prefix of non-error outcomes
before it — while a run of warnings alone never terminates and surfaces
every warning message. -/
theorem rootHandle_exit_contract :
    (∀ (pre : List VOutcome) (msg : String) (post : List VOutcome),
        (∀ o ∈ pre, isErrorOutcome o = false) →
        rootHandle (pre ++ .error msg :: post) = .exited 1 msg) ∧
      (1 : Nat) ≠ 0 ∧
      (∀ msgs : List String, rootHandle (msgs.map .warning) = .ready msgs) := by
  refine ⟨?_, by decide, ?_⟩
  · intro pre msg post hpre
    induction pre with
    | nil => rfl
    | cons o pre ih =>
        have ho := hpre o (by simp)
        have hrest : ∀ o ∈ pre, isErrorOutcome o = false :=
          fun x hx => hpre x (List.mem_cons_of_mem o hx)
        cases o with
        | ok =>
            show rootHandle (pre ++ .error msg :: post) = .exited 1 msg
            exact ih hrest
        | warning m =>
            show (match rootHandle (pre ++ .error msg :: post) with
              | .ready ws => BuildOutcome.ready (m :: ws)
              | .exited c msg => .exited c msg) = .exited 1 msg
            rw [ih hrest]
        | error m => cases ho
  · intro msgs
    induction msgs with
    | nil => rfl
    | cons m msgs ih =>
        show (match rootHandle (msgs.map .warning) with
          | .ready ws => BuildOutcome.ready (m :: ws)
          | .exited c msg => .exited c msg) = .ready (m :: msgs)
        rw [ih]

/-- Witness for C8: a concrete outcome list with a leading success and
warning, terminated by an error with message "boom". -/
theorem rootHandle_exit_contract_witness :
    (∀ o ∈ [VOutcome.ok, VOutcome.warning "w"], isErrorOutcome o = false) ∧
      rootHandle ([VOutcome.ok, VOutcome.warning "w"] ++ .error "boom" ::
        [VOutcome.ok]) = .exited 1 "boom" :=
  ⟨by decide, rootHandle_exit_contract.1 [VOutcome.ok, VOutcome.warning "w"] "boom"
    [VOutcome.ok] (by decide)⟩

/-- Programmatic member assignment: the value map resulting from a sequence
of `set` operations, each naming a member parameter key at most once. -/
def applySets (sets : List (String × String)) : String → Option String :=
  fun k => ((sets.filter (fun e => e.1 == k)).head?).map Prod.snd

theorem filter_key_len_le {s : List (String × String)}
    (hnd : (s.map Prod.fst).Nodup) (k : String) :
    (s.filter (fun e => e.1 == k)).length ≤ 1 := by
  induction s with
  | nil => simp
  | cons e t ih =>
      rw [List.map_cons, List.nodup_cons] at hnd
      rw [List.filter_cons]
      by_cases he : (e.1 == k) = true
      · rw [if_pos he]
        have ht : t.filter (fun e => e.1 == k) = [] := by
          rw [List.filter_eq_nil_iff]
          intro x hx hxk
          apply hnd.1
          rw [List.mem_map]
          have hx1 : x.1 = k := by simpa using hxk
          have he1 : e.1 = k := by simpa using he
          exact ⟨x, hx, by rw [hx1, he1]⟩
        simp [ht]
      · rw [if_neg he]
        exact ih hnd.2

theorem filter_key_eq_of_perm {s1 s2 : List (String × String)} (hp : s1.Perm s2)
    (hnd : (s1.map Prod.fst).Nodup) (k : String) :
    s1.filter (fun e => e.1 == k) = s2.filter (fun e => e.1 == k) := by
  have hpf := hp.filter (fun e => e.1 == k)
  have hlen := filter_key_len_le hnd k
  rcases h1 : s1.filter (fun e => e.1 == k) with _ | ⟨a, t⟩
  · rw [h1] at hpf
    rw [h1]
    exact (List.perm_nil.1 hpf.symm).symm
  · rw [h1] at hpf hlen
    rw [h1]
    have ht : t = [] := by
      cases t with
      | nil => rfl
      | cons b t2 => simp at hlen
    subst ht
    exact (List.perm_singleton.1 hpf.symm).symm

theorem applySets_perm {s1 s2 : List (String × String)} (hp : s1.Perm s2)
    (hnd : (s1.map Prod.fst).Nodup) : applySets s1 = applySets s2 := by
  funext k
  rw [applySets, applySets, filter_key_eq_of_perm hp hnd k]

/-- Modelled from the spec: `to_backend_params` (section 4.4): a collapsed
section (its backend `cfn` key set) yields exactly one backend parameter
whose value is the member values joined in schema-declared order with the
fixed separator ","; an absent member is serialized as the sentinel
placeholder "NONE" so position is preserved.  A normal section yields one
entry per member that carries a `cfn` key. -/
def toBackendParams (s : SectionSchema) (values : String → Option String) :
    List (String × String) :=
  match s.cfn with
  | some ck =>
      [(ck, String.intercalate ","
        (s.params.map (fun p => (values p.key).getD "NONE")))]
  | none =>
      s.params.filterMap (fun p => p.cfn.map (fun bk => (bk, (values p.key).getD "NONE")))

/-- C5: every collapsed section serializes to exactly one backend parameter
whose value joins the member values in schema-declared order with the
separator ",", absent members as the sentinel "NONE"; the output is
invariant under the order in which members were set programmatically; and
the efs/raid/fsx sections are collapsed with their schema-declared member
orders. -/
theorem collapsedSection_backend :
    (∀ (s : SectionSchema) (ck : String) (values : String → Option String),
        s.cfn = some ck →
        toBackendParams s values =
          [(ck, String.intercalate ","
            (s.params.map (fun p => (values p.key).getD "NONE")))] ∧
          (toBackendParams s values).length = 1) ∧
      (∀ (s : SectionSchema) (s1 s2 : List (String × String)),
        s1.Perm s2 → (s1.map Prod.fst).Nodup →
        toBackendParams s (applySets s1) = toBackendParams s (applySets s2)) ∧
      EFS.cfn = some "EFSOptions" ∧ RAID.cfn = some "RAIDOptions" ∧
      FSX.cfn = some "FSXOptions" ∧
      EFS.params.map ParamSchema.key =
        ["shared_dir", "efs_fs_id", "performance_mode", "efs_kms_key_id",
          "provisioned_throughput", "encrypted", "throughput_mode"] ∧
      RAID.params.map ParamSchema.key =
        ["shared_dir", "raid_type", "num_of_raid_volumes", "volume_type",
          "volume_size", "volume_iops", "encrypted", "ebs_kms_key_id"] ∧
      FSX.params.map ParamSchema.key =
        ["shared_dir", "fsx_fs_id", "storage_capacity", "fsx_kms_key_id",
          "imported_file_chunk_size", "export_path", "import_path",
          "weekly_maintenance_start_time"] := by
  refine ⟨?_, ?_, rfl, rfl, rfl, rfl, rfl, rfl⟩
  · intro s ck values hck
    constructor
    · simp only [toBackendParams, hck]
    · simp only [toBackendParams, hck]
      rfl
  · intro s s1 s2 hp hnd
    rw [applySets_perm hp hnd]

/-- Witness for C5: the efs section with two members set in both orders;
the backend parameter is the single EFSOptions value joined in the
schema-declared order either way. -/
theorem collapsedSection_backend_witness :
    EFS.cfn = some "EFSOptions" ∧
      toBackendParams EFS (applySets [("encrypted", "true"), ("shared_dir", "efs")]) =
        toBackendParams EFS (applySets [("shared_dir", "efs"), ("encrypted", "true")]) ∧
      toBackendParams EFS (applySets [("encrypted", "true"), ("shared_dir", "efs")]) =
        [("EFSOptions", "efs,NONE,NONE,NONE,NONE,true,NONE")] ∧
      (toBackendParams EFS (applySets [("encrypted", "true"), ("shared_dir", "efs")])).length = 1 := by
  refine ⟨rfl, collapsedSection_backend.2.1 EFS _ _ (by decide) (by decide), ?_,
    (collapsedSection_backend.1 EFS "EFSOptions"
      (applySets [("encrypted", "true"), ("shared_dir", "efs")]) rfl).2⟩
  decide

end CfnCluster
